import Mathlib

/-!
Verification development for the APTScout dynamic-import resolution engine
(`ghidra_scripts/aptscout.py`).

The Python engine works by running regular expressions over decompiled
pseudo-C text.  The embedding has two layers:

* a character-level layer that reproduces, with an explicit backtracking
  matcher, the regular expressions the engine applies to individual text
  fragments (`StringParam`, the `LoadLibrary` argument pattern, the
  `_exref` repair pass of the decompilation cache, ...);
* a statement-level layer in which a decompiled function body is the list
  of regex-relevant constructs (assignments `lhs = rhs;` and calls
  `callee(args)`) in textual order; the `re.findall`/`re.finditer` scans of the engine
  scans over the whole body become scans over that list, and slicing the
  text at a match offset becomes `List.take`.

All definitions are executable and total.
-/

set_option maxRecDepth 4000

/-- A backtracking pattern matcher over a list of characters: it returns
the possible (capture, remainder) pairs in exactly the order in which a
backtracking regex engine (Python `re`) would try them, so `List.head?`
of the result is the match `re` would report. -/
def Mtch (α : Type) : Type := List Char → List (α × List Char)

instance : Monad Mtch where
  pure a := fun cs => [(a, cs)]
  bind m f := fun cs => (m cs).flatMap (fun r => f r.1 r.2)

/-- Match one given character. -/
def mchar (c : Char) : Mtch Unit := fun cs =>
  match cs with
  | c' :: rest => if c' == c then [((), rest)] else []
  | [] => []

/-- Match one character satisfying a predicate (single-character class). -/
def mcharIf (p : Char → Bool) : Mtch Char := fun cs =>
  match cs with
  | c :: rest => if p c then [(c, rest)] else []
  | [] => []

/-- Match a literal string. -/
def mstr (s : String) : Mtch Unit := fun cs =>
  if s.data.isPrefixOf cs then [((), cs.drop s.data.length)] else []

/-- Greedy `?`: try with the inner pattern first, then without. -/
def mopt (m : Mtch α) : Mtch (Option α) := fun cs =>
  ((m cs).map (fun r => (some r.1, r.2))) ++ [(none, cs)]

/-- Alternation `a|b`: the left branch is tried first. -/
def malt (m₁ m₂ : Mtch α) : Mtch α := fun cs => m₁ cs ++ m₂ cs

/-- Lazy `+?` over a character class: shortest non-empty runs first. -/
def mlazyPlus (p : Char → Bool) : Mtch (List Char) := fun cs =>
  match cs with
  | [] => []
  | c :: rest =>
    if p c then ([c], rest) :: ((mlazyPlus p rest).map (fun r => (c :: r.1, r.2)))
    else []

/-- Greedy `*` over a character class: longest runs first. -/
def mgreedyStar (p : Char → Bool) : Mtch (List Char) := fun cs =>
  match cs with
  | [] => [([], [])]
  | c :: rest =>
    if p c then ((mgreedyStar p rest).map (fun r => (c :: r.1, r.2))) ++ [([], cs)]
    else [([], cs)]

/-- Match only at the end of the input. -/
def mEnd : Mtch Unit := fun cs =>
  match cs with
  | [] => [((), [])]
  | _ => []

/-- Anchored match (Python `re.match`): the first alternative the engine
finds when matching at position 0. -/
def matchAt (m : Mtch α) (cs : List Char) : Option (α × List Char) :=
  (m cs).head?

/-- Unanchored search (Python `re.search`): leftmost match. -/
def searchM (m : Mtch α) : List Char → Option (α × List Char)
  | [] => matchAt m []
  | cs@(_ :: rest) =>
    match matchAt m cs with
    | some r => some r
    | none => searchM m rest

/-- All leftmost non-overlapping matches (Python `re.finditer`), with fuel. -/
def findAllGo (m : Mtch α) : Nat → List Char → List α
  | 0, _ => []
  | fuel + 1, cs =>
    match matchAt m cs with
    | some (a, rem) =>
      if rem.length < cs.length then a :: findAllGo m fuel rem
      else a :: findAllGo m fuel (cs.drop 1)
    | none =>
      match cs with
      | [] => []
      | _ :: rest => findAllGo m fuel rest

/-- Replace all leftmost non-overlapping matches (Python `re.sub`), with fuel. -/
def substAllGo (m : Mtch Unit) (repl : List Char) : Nat → List Char → List Char
  | 0, cs => cs
  | fuel + 1, cs =>
    match matchAt m cs with
    | some (_, rem) =>
      if rem.length < cs.length then repl ++ substAllGo m repl fuel rem
      else repl ++ substAllGo m repl fuel (cs.drop 1)
    | none =>
      match cs with
      | [] => []
      | c :: rest => c :: substAllGo m repl fuel rest

/-- Space or tab, the `[ \t]` class of the regexes in the engine. -/
def isSpTab (c : Char) : Bool := c == ' ' || c == '\t'

/-- The `[a-zA-Z_]` class (identifier start). -/
def isIdentStart (c : Char) : Bool := c.isAlpha || c == '_'

/-- The `[a-zA-Z0-9_]` class (identifier continuation). -/
def isIdentChar (c : Char) : Bool := c.isAlphanum || c == '_'

/-- The `[a-fA-F0-9]` class. -/
def isHexDig (c : Char) : Bool :=
  c.isDigit || ('a' ≤ c && c ≤ 'f') || ('A' ≤ c && c ≤ 'F')

/-- Python `str.strip()` (kernel-computable). -/
def strTrim (s : String) : String :=
  String.mk (((s.data.dropWhile Char.isWhitespace).reverse.dropWhile Char.isWhitespace).reverse)

/-- Python `str.lower()` (kernel-computable; ASCII, as the inputs here are). -/
def strToLower (s : String) : String := String.mk (s.data.map Char.toLower)

/-- Python `str.split(',')` (kernel-computable). -/
def splitCommaGo : List Char → List Char → List String
  | [], acc => [String.mk acc.reverse]
  | c :: rest, acc =>
    if c == ',' then String.mk acc.reverse :: splitCommaGo rest []
    else splitCommaGo rest (c :: acc)

/-- Python `str.split(',')`. -/
def splitComma (s : String) : List String := splitCommaGo s.data []

/-- Python `a.replace(b, c)` on character lists, fuelled; a left-to-right
replacement of every non-overlapping occurrence. -/
def replaceListGo (pat repl : List Char) : Nat → List Char → List Char
  | 0, cs => cs
  | _ + 1, [] => []
  | fuel + 1, cs@(c :: rest) =>
    if pat ≠ [] && pat.isPrefixOf cs then repl ++ replaceListGo pat repl fuel (cs.drop pat.length)
    else c :: replaceListGo pat repl fuel rest

/-- Python `s.replace(pat, repl)` (for the non-empty patterns used here). -/
def strReplace (s pat repl : String) : String :=
  String.mk (replaceListGo pat.data repl.data (s.data.length + 1) s.data)

/-- Python `s.rsplit(" ", 1)[-1]`: the trailing run without a space. -/
def lastSpaceToken (s : String) : String :=
  String.mk ((s.data.reverse.takeWhile (fun c => c != ' ')).reverse)

/-- Contiguous-sublist test on character lists. -/
def subListOf (needle : List Char) : List Char → Bool
  | [] => needle.isEmpty
  | l@(_ :: rest) => needle.isPrefixOf l || subListOf needle rest

/-- Python `needle in hay` (substring containment). -/
def substrOf (needle hay : String) : Bool := subListOf needle.data hay.data

/-- Does `needle` occur at the very end of `hay`? -/
def suffixOfStr (needle hay : String) : Bool := needle.data.isSuffixOf hay.data

/-- The pattern `\(.+?\)` (a lazily matched parenthesised cast). -/
def parenLazyM : Mtch Unit := do
  mchar '('
  _ ← mlazyPlus (fun c => c != '\n')
  mchar ')'

/-- The cast prelude `\*?[ \t]?(?:\(.+?\))?[ \t]?` shared by the
two regexes of `StringParam` (`StringParam.cast_regex` in aptscout.py). -/
def castPreM : Mtch Unit := do
  _ ← mopt (mchar '*')
  _ ← mopt (mcharIf isSpTab)
  _ ← mopt parenLazyM
  _ ← mopt (mcharIf isSpTab)
  pure ()

/-- `StringParam.string_regex`: the cast prelude followed by `L?"(.+?)"`;
the capture is the quoted contents. -/
def stringLitM : Mtch String := do
  castPreM
  _ ← mopt (mchar 'L')
  mchar '"'
  let content ← mlazyPlus (fun c => c != '\n')
  mchar '"'
  pure (String.mk content)

/-- A bare identifier `[a-zA-Z_][a-zA-Z0-9_]*`, captured greedily. -/
def identM : Mtch String := do
  let c ← mcharIf isIdentStart
  let rest ← mgreedyStar isIdentChar
  pure (String.mk (c :: rest))

/-- `StringParam.var_regex`: the cast prelude followed by a bare identifier. -/
def varRefM : Mtch String := do
  castPreM
  identM

/-- Anchored application of `StringParam.string_regex` (Python `re.match`). -/
def matchStringRegex (s : String) : Option String :=
  (matchAt stringLitM s.data).map (fun r => r.1)

/-- Anchored application of `StringParam.var_regex` (Python `re.match`). -/
def matchVarRegex (s : String) : Option String :=
  (matchAt varRefM s.data).map (fun r => r.1)

/-- The result of the `StringParam` classifier: the value of a C string literal,
or the name of a variable reference (`StringParam.value` / `StringParam.name`;
exactly one of the two is set). -/
inductive SPRes where
  | literal (value : String)
  | reference (name : String)
deriving DecidableEq, Repr

/-- `StringParam.is_literal`. -/
def SPRes.isLiteral : SPRes → Bool
  | .literal _ => true
  | .reference _ => false

/-- `StringParam.get_value`. -/
def SPRes.valueOpt : SPRes → Option String
  | .literal v => some v
  | .reference _ => none

/-- `StringParam.get_name`. -/
def SPRes.nameOpt : SPRes → Option String
  | .literal _ => none
  | .reference n => some n

/-- `StringParam.__init__`: classify a raw argument fragment.  If the quoted
string pattern matches, the fragment is a literal holding the quoted
contents; otherwise it is a reference named by the identifier match, or by
the whole fragment when neither pattern matches. -/
def stringParam (param : String) : SPRes :=
  match matchStringRegex param with
  | some v => .literal v
  | none =>
    match matchVarRegex param with
    | some n => .reference n
    | none => .reference param


/-! ## Function objects and the decompilation cache (raw-text layer)

`DynamicImportsEnumerator.__decompile_function` caches decompiled text,
keyed by `function.getName()`; `__get_function_param` lazily caches a
text-derived parameter list in the same entry.  The decompiler collaborator
is modelled as a function returning `Option String` (`none` = it raised a
decompilation error). -/

/-- A Ghidra function object: its name, its declared parameter metadata
(`getParameterCount` / `getParameter(i).getName()` correspond to
`params.length` / `params.get? i`), and its signature prototype string. -/
structure Fn where
  name : String
  params : List String
  signature : String
deriving DecidableEq, Repr

/-- The pattern of the repair pass in `__decompile_function`:
`([a-zA-Z_][a-zA-Z0-9_]*)[ \t]?=[ \t]?(?:\(.+?\)[ \t]?)?((?:LoadLibrary(?:Ex)?|GetModuleHandle)(?:[AW])?|GetProcAddress)_exref;`. -/
def apiRefNameM : Mtch String :=
  malt
    (do
      let base ← malt
        (do
          mstr "LoadLibrary"
          let e ← mopt (mstr "Ex")
          pure (if e.isSome then "LoadLibraryEx" else "LoadLibrary"))
        (do mstr "GetModuleHandle"; pure "GetModuleHandle")
      let s ← mopt (mcharIf (fun c => c == 'A' || c == 'W'))
      pure (match s with | some c => base.push c | none => base))
    (do mstr "GetProcAddress"; pure "GetProcAddress")

/-- The full `_exref` assignment pattern searched by the repair pass of
`__decompile_function` (captures: assigned variable, API name). -/
def exrefM : Mtch (String × String) := do
  let v ← identM
  _ ← mopt (mcharIf isSpTab)
  mchar '='
  _ ← mopt (mcharIf isSpTab)
  _ ← mopt (do parenLazyM; _ ← mopt (mcharIf isSpTab); pure ())
  let a ← apiRefNameM
  mstr "_exref;"
  pure (v, a)

/-- All `_exref` assignments found in a decompiled text
(the `re.finditer` loop of `__decompile_function`). -/
def findExrefs (code : String) : List (String × String) :=
  findAllGo exrefM (code.data.length + 1) code.data

/-- The substitution pattern of the repair pass:
`(?:\(HMODULE\))?[ \t]?(?:\([ \t]?\*)?[ \t]?\(code \*\)[ \t]?(?:\([ \t]?\*)?[ \t]?VAR\)`
with `VAR` the variable captured by `exrefM`. -/
def subPatM (v : String) : Mtch Unit := do
  _ ← mopt (mstr "(HMODULE)")
  _ ← mopt (mcharIf isSpTab)
  _ ← mopt (do mchar '('; _ ← mopt (mcharIf isSpTab); mchar '*'; pure ())
  _ ← mopt (mcharIf isSpTab)
  mstr "(code *)"
  _ ← mopt (mcharIf isSpTab)
  _ ← mopt (do mchar '('; _ ← mopt (mcharIf isSpTab); mchar '*'; pure ())
  _ ← mopt (mcharIf isSpTab)
  mstr v
  mchar ')'

/-- One `re.sub` application of the repair pass. -/
def subExref (v api code : String) : String :=
  String.mk (substAllGo (subPatM v) api.data (code.data.length + 1) code.data)

/-- The whole repair pass of `__decompile_function`: rewrite disguised
indirect calls through `_exref` stubs back into direct call syntax. -/
def repairExrefs (code : String) : String :=
  (findExrefs code).foldl (fun c r => subExref r.1 r.2 c) code

/-- One entry of `self.decompiled_functions` (keyed by function name):
the decompiled text plus the lazily cached text-derived parameter list. -/
structure CacheEntry where
  code : String
  params : Option (List String)
deriving DecidableEq, Repr

/-- `self.decompiled_functions`: an association list keyed by function name. -/
abbrev DecompCache := List (String × CacheEntry)

/-- Result of one `__decompile_function` call: the returned text, the
updated cache, and whether the decompiler collaborator was invoked. -/
structure DecompRes where
  code : String
  cache : DecompCache
  invoked : Bool
deriving DecidableEq, Repr

/-- `__decompile_function`: return the cached text when the name is cached;
otherwise invoke the decompiler, fall back to `signature + empty body` on
failure, run the repair pass, and cache under the name of the function. -/
def decompileFunction (dec : Fn → Option String) (cache : DecompCache) (f : Fn) : DecompRes :=
  match cache.lookup f.name with
  | some e => ⟨e.code, cache, false⟩
  | none =>
    let raw :=
      match dec f with
      | some c => c
      | none => f.signature ++ "\x7b\x7d"
    let code := repairExrefs raw
    ⟨code, cache ++ [(f.name, ⟨code, none⟩)], true⟩

/-- The call-site pattern `NAME[ \t]?\([ \t]?(.*)[ \t]?\)` compiled by
`__get_function_regex`, applied to raw text; captures the argument text. -/
def callArgsM (fname : String) : Mtch String := do
  mstr fname
  _ ← mopt (mcharIf isSpTab)
  mchar '('
  _ ← mopt (mcharIf isSpTab)
  let g ← mgreedyStar (fun c => c != '\n')
  _ ← mopt (mcharIf isSpTab)
  mchar ')'
  pure (String.mk g)

/-- The text-derived parameter list of `__get_function_param` /
`__enumerate_function_params`: the argument text of the first call-pattern
match of the own name of the function in its decompiled text (this finds the
signature line), split on commas. -/
def textParams (fname code : String) : Option (List String) :=
  (searchM (callArgsM fname) code.data).map (fun r => splitComma r.1)

/-- Store a lazily computed text-derived parameter list in the cache entry. -/
def setCachedParams (cache : DecompCache) (fname : String) (ps : List String) : DecompCache :=
  cache.map (fun e => if e.1 == fname then (e.1, ⟨e.2.code, some ps⟩) else e)

/-- `__get_function_param`: the name of the formal parameter at `index`.
When the function metadata has enough parameters it is used directly;
otherwise the (cached) text-derived list is consulted.  (When the cache has
no entry for the name, or the call pattern does not occur in the text, the
Python code raises; that exceptional path is modelled as `none`.) -/
def getFunctionParamC (cache : DecompCache) (f : Fn) (functionCode : String) (index : Nat) :
    Option String × DecompCache :=
  if index < f.params.length then (f.params.get? index, cache)
  else
    match cache.lookup f.name with
    | none => (none, cache)
    | some entry =>
      match entry.params with
      | some ps => ((ps.get? index).map strTrim, cache)
      | none =>
        match textParams f.name functionCode with
        | none => (none, cache)
        | some ps => ((ps.get? index).map strTrim, setCachedParams cache f.name ps)


/-! ## The statement-level model of decompiled text

A decompiled function body is modelled as the sequence of regex-relevant
constructs in textual order: assignments `lhs = rhs;` and calls
`callee(arg, ...)`.  One line of text can be relevant to several of the
regexes of the engine (`h = LoadLibraryA("x");` matches both the generic
assignment pattern and the LoadLibrary pattern); each scan below therefore
re-interprets the same events through its own pattern. -/

/-- One construct of decompiled pseudo-C text. -/
inductive Stmt where
  | assign (lhs rhs : String)
  | call (callee : String) (args : List String)
deriving DecidableEq, Repr

/-- A decompiled function body: its constructs in textual order. -/
abbrev Code := List Stmt

/-- The program context consumed by `DynamicImportsEnumerator`, with the
inputs the Python code leaves under-determined made explicit:

* `code` is the per-run mapping from function *name* to decompiled
  structured text — keyed by name because the engine only reads text
  through `__decompile_function`, whose cache is keyed by
  `function.getName()` (first writer wins for same-named objects); which
  object won is therefore part of this input;
* `callers` is the result of `__get_calling_functions` with the iteration
  order of that Python *set* fixed as a list — that order is not determined
  by the binary, and claim C9 shows it is observable in the output;
* `fnsByName` is `getGlobalFunctions`, `loadLibFns` the set of functions
  containing LoadLibrary-family references, `strings` the defined string
  literals, and `apiDb` the optional API database (`none` models a missing
  db file). -/
structure ProgState where
  code : String → Code
  fnsByName : String → List Fn
  loadLibFns : List Fn
  callers : Fn → List Fn
  strings : List String
  apiDb : Option (List (String × List String))

/-- `re.match(self.internal_function_regex, name)` — an anchored prefix
test for `(?:FUN|UndefinedFunction)_[a-fA-F0-9]+`. -/
def matchesInternalStart (s : String) : Bool :=
  (("FUN_".data).isPrefixOf s.data &&
    (match (s.data.drop 4) with | c :: _ => isHexDig c | [] => false)) ||
  (("UndefinedFunction_".data).isPrefixOf s.data &&
    (match (s.data.drop 18) with | c :: _ => isHexDig c | [] => false))

/-- Is the whole character list of the shape `(FUN|UndefinedFunction)_hex+`? -/
def internalWhole (l : List Char) : Bool :=
  (("FUN_".data).isPrefixOf l && (l.drop 4) ≠ [] && (l.drop 4).all isHexDig) ||
  (("UndefinedFunction_".data).isPrefixOf l && (l.drop 18) ≠ [] && (l.drop 18).all isHexDig)

/-- Scan for the leftmost suffix of a callee name that the group
`((?:FUN|UndefinedFunction)\_[a-fA-F0-9]+)` of `internal_call_regex` would
capture (the captured run must reach the `(` that follows the name). -/
def internalSuffGo : List Char → Option String
  | [] => none
  | l@(_ :: rest) => if internalWhole l then some (String.mk l) else internalSuffGo rest

/-- The name captured by `internal_call_regex` for a call to `c`, if any. -/
def internalSuffix (c : String) : Option String := internalSuffGo c.data

/-- The finite language of the copy-API alternation of `self.call_regex`:
`str(?:n)?cpy(?:_s)?|w?mem(?:cpy|move)(?:_s)?|basic_string<>`. -/
def copyApiNames : List String :=
  ["strcpy", "strncpy", "strcpy_s", "strncpy_s",
   "memcpy", "memmove", "memcpy_s", "memmove_s",
   "wmemcpy", "wmemmove", "wmemcpy_s", "wmemmove_s", "basic_string<>"]

/-- The name captured by the copy-API alternation of `self.call_regex` for
a call to `c` (the longest member ending the callee text, since the capture
must reach the `(` that follows). -/
def copyApiSuffix (c : String) : Option String :=
  (copyApiNames.filter (fun n => suffixOfStr n c)).foldl
    (fun acc n =>
      match acc with
      | none => some n
      | some m => if n.length > m.length then some n else some m) none

/-- `__enumerate_calls`: the call events whose callee the given name filter
captures, yielded backwards (most recent first), as (captured name, raw
comma-split arguments). -/
def enumCallsWith (pick : String → Option String) (code : Code) : List (String × List String) :=
  (code.filterMap (fun s =>
    match s with
    | .call c args => (pick c).map (fun n => (n, args))
    | _ => none)).reverse

/-- `__enumerate_internal_calls`. -/
def enumInternalCalls (code : Code) : List (String × List String) :=
  enumCallsWith internalSuffix code

/-- `__enumerate_function_calls` (internal functions and copy APIs). -/
def enumFunctionCalls (code : Code) : List (String × List String) :=
  enumCallsWith (fun c => (internalSuffix c).orElse (fun _ => copyApiSuffix c)) code

/-- The LoadLibrary call pattern that follows `=` in `loadlibrary_regex`:
`\s?(?:LoadLibrary(?:Ex)?|GetModuleHandle)(?:[AW])?\s?\(\s?(?:\(.+?\))?\s?(.+?)\s?[),]`;
the capture is the first-argument text. -/
def loadLibCallM : Mtch String := do
  _ ← mopt (mcharIf Char.isWhitespace)
  malt (do mstr "LoadLibrary"; _ ← mopt (mstr "Ex"); pure ()) (mstr "GetModuleHandle")
  _ ← mopt (mcharIf (fun c => c == 'A' || c == 'W'))
  _ ← mopt (mcharIf Char.isWhitespace)
  mchar '('
  _ ← mopt (mcharIf Char.isWhitespace)
  _ ← mopt parenLazyM
  _ ← mopt (mcharIf Char.isWhitespace)
  let content ← mlazyPlus (fun c => c != '\n')
  _ ← mopt (mcharIf Char.isWhitespace)
  _ ← mcharIf (fun c => c == ')' || c == ',')
  pure (String.mk content)

/-- Does the right-hand side of an assignment match the LoadLibrary call
pattern?  If so, return the captured first-argument text. -/
def loadLibArg (rhs : String) : Option String :=
  (matchAt loadLibCallM rhs.data).map (fun r => r.1)

/-- Is the string entirely a C identifier (the rhs shape required by
the group of `alias_regex2`, which must be followed directly by `;`)? -/
def isIdentStr (s : String) : Bool :=
  match s.data with
  | [] => false
  | c :: rest => isIdentStart c && rest.all isIdentChar

/-- The identifier captured by a group `([a-zA-Z_][a-zA-Z0-9_]*)` that must
end exactly where the lhs text ends (leftmost valid start inside the
trailing identifier-character run). -/
def identSuffix (s : String) : Option String :=
  match (((s.data.reverse.takeWhile isIdentChar).reverse).dropWhile
      (fun c => !isIdentStart c)) with
  | [] => none
  | l => some (String.mk l)

/-- The rhs shape `(?:\(.+?\)\s*)?PARAM` (ending at the `;`) required by
`alias_regex` after the `=`. -/
def aliasRhsM (param : String) : Mtch Unit := do
  _ ← mopt (do
        mchar '('
        _ ← mlazyPlus (fun c => c != '\n')
        mchar ')'
        _ ← mgreedyStar Char.isWhitespace
        pure ())
  mstr param
  mEnd

/-- Does an assignment rhs consist of the given parameter, possibly behind
one parenthesised cast (the `alias_regex` rhs test)? -/
def rhsIsCastedParam (rhs param : String) : Bool :=
  (matchAt (aliasRhsM param) rhs.data).isSome

/-- The `re.search(self.alias_regex.format(param), code)` step of
`__find_h_module_assignment`: the alias variable assigned from `param`
in the first matching assignment, in textual order. -/
def findAliasFor (code : Code) (param : String) : Option String :=
  code.findSome? (fun s =>
    match s with
    | .assign l r => if rhsIsCastedParam r param then identSuffix l else none
    | _ => none)

/-- The hole pattern interpolated into `loadlibrary_regex` / `alias_regex2`
by the Handle Resolver: the escaped handle text itself, or the
`hmodule_cast_regex` wrapping of a formal parameter (or parameter-or-alias
alternation) with a struct offset. -/
inductive LhsPat where
  | exact (s : String)
  | casted (pname off : String)
  | castedOr (pname aliasName off : String)
deriving DecidableEq, Repr

/-- Whether the lhs text of an assignment event matches the hole pattern:
an escaped handle must end exactly before the `=` (so it is a suffix of the
lhs text); the cast wrappings of `hmodule_cast_regex` are all optional, so
the casted patterns reduce to an occurrence of `name ++ offset` anywhere in
the lhs. -/
def LhsPat.matchesLhs : LhsPat → String → Bool
  | .exact s, lhs => suffixOfStr s lhs
  | .casted p off, lhs => substrOf (p ++ off) lhs
  | .castedOr p a off, lhs => substrOf (p ++ off) lhs || substrOf (a ++ off) lhs

/-- The `alias_regex2` scan of `__find_loadlibrary_assignment`: the last
assignment `PAT = identifier;`, as (event index, identifier). -/
def lastAssignTo (pat : LhsPat) (code : Code) : Option (Nat × String) :=
  (code.enum.filterMap (fun p =>
    match p.2 with
    | .assign l r => if pat.matchesLhs l && isIdentStr r then some (p.1, r) else none
    | _ => none)).getLast?

/-- `__find_loadlibrary_assignment`: optionally rewrite the handle through
its last alias assignment (restricting the search to the text above it),
then classify the first-argument text of the closest preceding
LoadLibrary-family call assigned into the handle. -/
def findLoadLibraryAssignment (pat : LhsPat) (code : Code) : Option SPRes :=
  let pc :=
    match lastAssignTo pat code with
    | some ia => (LhsPat.exact ia.2, code.take ia.1)
    | none => (pat, code)
  match ((pc.2.filterMap (fun s =>
      match s with
      | .assign l r => if pc.1.matchesLhs l then loadLibArg r else none
      | _ => none)).getLast?) with
  | some arg => some (stringParam (strTrim arg))
  | none => none

/-- The text-derived parameter list at statement level: the raw arguments
of the first call event matching the own name of the function (this finds the
signature line of the decompiled text). -/
def textParamsS (fname : String) (code : Code) : Option (List String) :=
  code.findSome? (fun s =>
    match s with
    | .call c args => if suffixOfStr fname c then some args else none
    | _ => none)

/-- `__get_function_param` at statement level (the engine layer needs no
cache since the model is pure): function metadata when it has enough
parameters, else the text-derived list. -/
def getFunctionParamS (g : Fn) (code : Code) (index : Nat) : Option String :=
  if index < g.params.length then g.params.get? index
  else (textParamsS g.name code).bind (fun ps => (ps.get? index).map strTrim)

/-- The name extraction from a `<type> <name>` declaration in `__enumerate_function_params`:
`decl.rsplit(" ", 1)[-1].replace("*", "").strip()`. -/
def paramNameFromDecl (s : String) : String :=
  strTrim (strReplace (lastSpaceToken s) "*" "")

/-- `__enumerate_function_params`: (ordinal, name) of each formal parameter,
from metadata when present, else from the text-derived list. -/
def enumFunctionParams (g : Fn) (code : Code) : List (Nat × String) :=
  if g.params.length > 0 then g.params.enum
  else
    match textParamsS g.name code with
    | some ps => ps.enum.map (fun p => (p.1, paramNameFromDecl p.2))
    | none => []

/-- The scan state machine of `__find_string_literal_param`: walk the arguments
left to right, tracking whether the variable was seen (substring test) and
the most recently classified other argument; return that argument as soon
as both the variable has been seen and the tracked argument is a literal. -/
def fslpGo (varName : String) : List String → Bool → Option SPRes → Option SPRes
  | [], _, _ => none
  | p :: rest, varFound, strParam =>
    if substrOf varName p then
      if (match strParam with | some s => s.isLiteral | none => false) then strParam
      else fslpGo varName rest true strParam
    else
      if varFound && (stringParam p).isLiteral then some (stringParam p)
      else fslpGo varName rest varFound (some (stringParam p))

/-- `__find_string_literal_param`. -/
def findStringLiteralParam (params : List String) (varName : String) : Option SPRes :=
  fslpGo varName params false none


/-! ## Handle Resolver (`__find_h_module` / `__find_h_module_assignment`) -/

/-- The skip test `function and called_function_name == function.getName()`
of `__find_h_module` (false when no function is under analysis). -/
def fnSkip (fn? : Option Fn) (n : String) : Bool :=
  match fn? with
  | some f => n == f.name
  | none => false

/-- The loop body of `__find_h_module_assignment` over the actual call
arguments: skip arguments unrelated to the handle; for a related argument,
map it to the formal parameter of the callee, extend it with a found alias,
and run the direct LoadLibrary-assignment search inside the text of the callee.
A literal result is returned; a reference result is translated back to the
call-site argument supplying the matching enclosing-function parameter; a
failed direct search stops the loop (`break`), and a reference result with
no matching parameter moves on to the next argument. -/
def fhmaGo (st : ProgState) (g : Fn) (callParams : List String) (hModule off : String) :
    List (Nat × String) → Option SPRes
  | [] => none
  | (idx, cp) :: rest =>
    if !(substrOf hModule cp || substrOf cp hModule) then
      fhmaGo st g callParams hModule off rest
    else
      let code := st.code g.name
      match getFunctionParamS g code idx with
      | none => none
      | some hp =>
        let pat :=
          match findAliasFor code hp with
          | some a => LhsPat.castedOr hp a off
          | none => LhsPat.casted hp off
        match findLoadLibraryAssignment pat code with
        | none => none
        | some lp =>
          if lp.isLiteral then some lp
          else
            match (enumFunctionParams g code).findSome? (fun p =>
                if substrOf p.2 ((lp.nameOpt).getD "") then some p.1 else none) with
            | some pidx =>
              match callParams.get? pidx with
              | some cp2 => some (stringParam cp2)
              | none => none
            | none => fhmaGo st g callParams hModule off rest

/-- `__find_h_module_assignment`. -/
def findHModuleAssignment (st : ProgState) (g : Fn) (callParams : List String)
    (hModule off : String) : Option SPRes :=
  fhmaGo st g callParams hModule off callParams.enum

/-- The loop of `__find_h_module` over the internal calls preceding the
call site (most recent first): skip the function under analysis, skip the
calling function, skip unknown names and callees with no LoadLibrary-family
reference, and stop at the first callee in which the assignment search
succeeds. -/
def fhmGo (st : ProgState) (callingFn : Fn) (fn? : Option Fn) (hModule off : String) :
    List (String × List String) → Option SPRes
  | [] => none
  | (n, args) :: rest =>
    if fnSkip fn? n then
      fhmGo st callingFn fn? hModule off rest
    else if n == callingFn.name then
      fhmGo st callingFn fn? hModule off rest
    else
      match st.fnsByName n with
      | [] => fhmGo st callingFn fn? hModule off rest
      | g :: _ =>
        if !(st.loadLibFns.contains g) then fhmGo st callingFn fn? hModule off rest
        else
          match findHModuleAssignment st g args hModule off with
          | some lp => some lp
          | none => fhmGo st callingFn fn? hModule off rest

/-- `__find_h_module`: first the direct assignment search on the preceding
slice (step 1), then the inter-procedural loop over preceding internal
calls (step 2). -/
def findHModule (st : ProgState) (callingFn : Fn) (ctx : Code) (fn? : Option Fn)
    (hModule off : String) : Option SPRes :=
  match findLoadLibraryAssignment (LhsPat.exact hModule) ctx with
  | some lp => some lp
  | none => fhmGo st callingFn fn? hModule off (enumInternalCalls ctx)

/-! ## Name and DLL resolution loops of `__parse_api_params` -/

/-- The DLL search loop (aptscout.py lines 367-374): scan the enumerated
calls of the preceding slice, skipping only the current function, for a
literal co-located with the handle text. -/
def rdvGo (fname hModule : String) : List (String × List String) → Option String
  | [] => none
  | (n, ps) :: rest =>
    if n == fname then rdvGo fname hModule rest
    else
      match findStringLiteralParam ps hModule with
      | some s => if s.isLiteral then s.valueOpt else rdvGo fname hModule rest
      | none => rdvGo fname hModule rest

/-- The DLL fallback of `__parse_api_params` when `__find_h_module` fails. -/
def resolveDllViaCalls (fname : String) (ctx : Code) (hModule : String) : Option String :=
  rdvGo fname hModule (enumFunctionCalls ctx)

/-- The API-name search loop (aptscout.py lines 383-394): scan the
enumerated calls of the preceding slice, skipping call names with an
internal-function-shaped prefix and the current function, for a literal
co-located with the reference name. -/
def ranGo (fname refName : String) : List (String × List String) → Option String
  | [] => none
  | (n, ps) :: rest =>
    if matchesInternalStart n then ranGo fname refName rest
    else if n == fname then ranGo fname refName rest
    else
      match findStringLiteralParam ps refName with
      | some s => if s.isLiteral then s.valueOpt else ranGo fname refName rest
      | none => ranGo fname refName rest

/-- The Name Resolver for a reference-classified second argument of
`GetProcAddress` (the `else` branch of `__parse_api_params`). -/
def resolveApiName (fname : String) (ctx : Code) (refName : String) : Option String :=
  ranGo fname refName (enumFunctionCalls ctx)

/-- The per-call step of the API-name search loop as a single function. -/
def ranStep (fname refName : String) (p : String × List String) : Option String :=
  if matchesInternalStart p.1 then none
  else if p.1 == fname then none
  else
    match findStringLiteralParam p.2 refName with
    | some s => if s.isLiteral then s.valueOpt else none
    | none => none

/-! ## External parameters and `__parse_api_params` -/

/-- The `external_params` dictionary: roles resolved to formal-parameter
positions of the enclosing function (plus the struct offset for the
handle). -/
structure ExtParams where
  lpLibFileName : Option Nat := none
  hModule : Option (Nat × String) := none
  lpProcName : Option Nat := none
deriving DecidableEq, Repr

/-- `len(external_params) == 0`. -/
def ExtParams.isEmpty (e : ExtParams) : Bool :=
  e.lpLibFileName.isNone && e.hModule.isNone && e.lpProcName.isNone

/-- `hmodule_cast_regex.format(r"(.[^\)\n\r,]*)")` applied with `re.match`
to the handle text (aptscout.py line 417): strip the optional cast
wrappings and capture the parameter-plus-offset text. -/
def hmodCastCaptureM : Mtch String := do
  _ ← mopt (do
        mchar '*'; _ ← mopt (mcharIf isSpTab)
        mchar '('; _ ← mopt (mcharIf isSpTab)
        mstr "HMODULE"; _ ← mopt (mcharIf isSpTab)
        mchar '*'; mchar ')'; pure ())
  _ ← mopt (mchar '(')
  _ ← mopt (do mchar '('; _ ← mgreedyStar (fun c => c != '\n'); mchar ')'; pure ())
  let c ← mcharIf (fun ch => ch != '\n')
  let rest ← mgreedyStar (fun ch => ch != ')' && ch != '\n' && ch != '\r' && ch != ',')
  pure (String.mk (c :: rest))

/-- The capture of the handle-cast match, if the pattern matches. -/
def hmoduleCastMatch (h : String) : Option String :=
  (matchAt hmodCastCaptureM h.data).map (fun r => r.1)

/-- One iteration of the external-parameter loop of `__parse_api_params`
(aptscout.py lines 401-428), faithful to its `continue`/fall-through
structure. -/
def extStep (apiDll apiName : Option String) (lpLib : Option SPRes)
    (lpProcName? : Option String) (hModule : String)
    (e : ExtParams) (ip : Nat × String) : ExtParams :=
  let procCheck : ExtParams :=
    if apiName.isNone && some ip.2 == lpProcName? then { e with lpProcName := some ip.1 }
    else e
  if apiDll.isNone then
    match lpLib with
    | some lp =>
      if lp.nameOpt == some ip.2 then { e with lpLibFileName := some ip.1 }
      else procCheck
    | none =>
      if substrOf ip.2 hModule then
        match hmoduleCastMatch hModule with
        | some grp => { e with hModule := some (ip.1, strReplace grp ip.2 "") }
        | none => e
      else procCheck
  else procCheck

/-- `__parse_api_params` for one `GetProcAddress` call site: the preceding
slice is the first `ctxLen` events of the text of the function; `hModule` and
`procArg` are the stripped first and second argument texts of the call.
Returns (api dll, api name, external parameters); external parameters are
`none` exactly when both dll and name were found. -/
def parseApiParams (st : ProgState) (f : Fn) (code : Code) (ctxLen : Nat)
    (hModule procArg : String) : Option String × Option String × Option ExtParams :=
  let ctx := code.take ctxLen
  let lpLib := findHModule st f ctx none hModule ""
  let apiDll :=
    match lpLib with
    | none => resolveDllViaCalls f.name ctx hModule
    | some lp => lp.valueOpt
  let lpProc := stringParam procArg
  let apiName :=
    match lpProc with
    | .literal v => some v
    | .reference nm => resolveApiName f.name ctx nm
  if apiDll.isSome && apiName.isSome then (apiDll, apiName, none)
  else
    (apiDll, apiName,
      some ((enumFunctionParams f ctx).foldl
        (extStep apiDll apiName lpLib lpProc.nameOpt hModule) {}))

/-! ## `__enumerate_call_params` and the orchestrator -/

/-- The call sites of a named function inside the text of a caller
(`__get_function_regex(function_name)` applied with `finditer`): event
index and raw argument list. -/
def callSitesOf (fname : String) (code : Code) : List (Nat × List String) :=
  code.enum.filterMap (fun p =>
    match p.2 with
    | .call c args => if suffixOfStr fname c then some (p.1, args) else none
    | _ => none)

/-- The called-function loop of `__enumerate_call_params` (aptscout.py
lines 326-336) resolving a referenced `lpLibFileName`: skip the analyzed
function and the caller, return the first co-located literal. -/
def ecpLibLoop (fname cname refName : String) : List (String × List String) → Option SPRes
  | [] => none
  | (n, ps) :: rest =>
    if n == fname then ecpLibLoop fname cname refName rest
    else if n == cname then ecpLibLoop fname cname refName rest
    else
      match findStringLiteralParam ps refName with
      | some d => some d
      | none => ecpLibLoop fname cname refName rest

/-- `__enumerate_call_params`: for every call to the analyzed function in
every calling function, recover the `(lpLibFileName, lpProcName)` pair
available at that call site from the recorded external-parameter
positions.  (The out-of-range handle index, on which the Python code
raises, is modelled as an unresolved handle.) -/
def enumerateCallParams (st : ProgState) (f : Fn) (ext : ExtParams) :
    List (Option SPRes × Option SPRes) :=
  (st.callers f).flatMap (fun calling =>
    let ccode := st.code calling.name
    (callSitesOf f.name ccode).map (fun site =>
      let params := site.2.map strTrim
      let lpProc : Option SPRes :=
        match ext.lpProcName with
        | some j => if j < params.length then (params.get? j).map stringParam else none
        | none => none
      let lpLib0 : Option SPRes :=
        match ext.lpLibFileName with
        | some j =>
          if j < params.length then
            match (params.get? j).map stringParam with
            | some s =>
              if s.isLiteral then some s
              else
                let ctx := ccode.take site.1
                let assigns := ctx.filterMap (fun st' =>
                  match st' with
                  | .assign l r =>
                    if suffixOfStr ((s.nameOpt).getD "") l then some r else none
                  | _ => none)
                match assigns.getLast? with
                | some rhs => some (stringParam rhs)
                | none =>
                  match ecpLibLoop f.name calling.name ((s.nameOpt).getD "")
                      (enumFunctionCalls ctx) with
                  | some d => some d
                  | none => some s
            | none => none
          else none
        | none => none
      let lpLib : Option SPRes :=
        match ext.hModule with
        | some jo =>
          match params.get? jo.1 with
          | some h => findHModule st calling (ccode.take site.1) (some f) h jo.2
          | none => none
        | none => lpLib0
      (lpLib, lpProc)))

/-- The second-argument capture of `getprocaddress_regex`
(`[ \t]?(?:\(.+?\))?[ \t]?(.+?)[ \t]?` reaching the end of the argument
text): strip a leading cast and single paddings.  `none` when the pattern
cannot match (then the call-site regex would not have matched at all). -/
def gpaArg2 (a : String) : Option String :=
  (matchAt
    (do
      _ ← mopt (mcharIf isSpTab)
      _ ← mopt parenLazyM
      _ ← mopt (mcharIf isSpTab)
      let content ← mlazyPlus (fun c => c != '\n')
      _ ← mopt (mcharIf isSpTab)
      mEnd
      pure (String.mk content)) a.data).map (fun r => r.1)

/-- The `GetProcAddress` call sites of a decompiled body
(`getprocaddress_regex.finditer`): event index, stripped handle text,
stripped API-name argument text. -/
def gpaSites (code : Code) : List (Nat × String × String) :=
  code.enum.filterMap (fun p =>
    match p.2 with
    | .call c (a0 :: a1 :: _) =>
      if suffixOfStr "GetProcAddress" c && strTrim a0 != "" then
        (gpaArg2 a1).map (fun g => (p.1, strTrim a0, strTrim g))
      else none
    | _ => none)

/-- One iteration of the emission loop over `__enumerate_call_params`
(aptscout.py lines 533-543): literal results overwrite the dll / name
found so far (and persist across iterations), and a pair is emitted
whenever an api name is available. -/
def emitStep (acc : (Option String × Option String) × List (Option String × String))
    (pair : Option SPRes × Option SPRes) :
    (Option String × Option String) × List (Option String × String) :=
  let dll? :=
    match pair.1 with
    | some (.literal v) => some v
    | _ => acc.1.1
  let name? :=
    match pair.2 with
    | some (.literal v) => some v
    | _ => acc.1.2
  let ems :=
    match name? with
    | some n => if n != "" then acc.2 ++ [(dll?, n)] else acc.2
    | none => acc.2
  ((dll?, name?), ems)

/-- The per-function body of `crawl_dynamic_imports`: the sequence of
`(api_dll, api_name)` pairs passed to `__update_api_dict` for the
`GetProcAddress` call sites of the function, in order. -/
def processFunction (st : ProgState) (f : Fn) : List (Option String × String) :=
  let code := st.code f.name
  (gpaSites code).flatMap (fun site =>
    match parseApiParams st f code site.1 site.2.1 site.2.2 with
    | (dll?, name?, none) =>
      match name? with
      | some n => [(dll?, n)]
      | none => []
    | (dll?, name?, some ext) =>
      if ext.isEmpty then
        match name? with
        | some n => [(dll?, n)]
        | none => []
      else
        ((enumerateCallParams st f ext).foldl emitStep ((dll?, name?), [])).2)

/-! ## `__update_api_dict` and the output dictionary -/

/-- The output mapping dll → api names, as an association list with
set-semantics value lists (Python dict of sets). -/
abbrev ApiDict := List (String × List String)

/-- `api_dict[api_dll].add(api_name)` (creating the key if needed). -/
def insertApi (d : ApiDict) (dll api : String) : ApiDict :=
  match d with
  | [] => [(dll, [api])]
  | (k, apis) :: rest =>
    if k == dll then (k, if apis.contains api then apis else apis ++ [api]) :: rest
    else (k, apis) :: insertApi rest dll api

/-- The literal test of the API Database Disambiguator (aptscout.py line
149): some defined string of the binary equals the candidate DLL name
case-insensitively, or equals it with the `.dll` suffix of the candidate
missing. -/
def dbMatchesLiteral (strings : List String) (dll : String) : Bool :=
  strings.any (fun s =>
    strToLower dll == strToLower s || strToLower dll == strToLower s ++ ".dll")

/-- The database path of `__update_api_dict`: with a database present and
listing the API name, count the candidate DLLs with a matching defined
string; adopt the candidate only when the count is exactly one. -/
def resolveDllFromDb (st : ProgState) (apiName : String) : Option String :=
  match st.apiDb with
  | none => none
  | some db =>
    match db.lookup apiName with
    | none => none
    | some cands =>
      let matching := cands.filter (dbMatchesLiteral st.strings)
      if matching.length == 1 then matching.head? else none

/-- Python `s.endswith(".dll") or s.endswith(".drv") or s.endswith(".ocx")`. -/
def endsWithKnownExt (s : String) : Bool :=
  (".dll".data).isSuffixOf s.data || (".drv".data).isSuffixOf s.data ||
    (".ocx".data).isSuffixOf s.data

/-- The key normalization of `__update_api_dict` (lines 158-164): lower
the name and append `.dll` unless a known extension is already present. -/
def normalizeDll (s : String) : String :=
  let l := strToLower s
  if endsWithKnownExt l then l else l ++ ".dll"

/-- `__update_api_dict`: resolve a missing dll through the database path,
then normalize the key and add the api name; with no dll resolved, the
dictionary is unchanged. -/
def updateApiDict (st : ProgState) (d : ApiDict) (dll? : Option String)
    (apiName : String) : ApiDict :=
  let resolved :=
    match dll? with
    | some x => some x
    | none => resolveDllFromDb st apiName
  match resolved with
  | none => d
  | some dll => insertApi d (normalizeDll dll) apiName

/-- `crawl_dynamic_imports` over a given enumeration order of the functions
containing `GetProcAddress` references. -/
def crawlDynamicImports (st : ProgState) (fns : List Fn) (d0 : ApiDict) : ApiDict :=
  (fns.flatMap (processFunction st)).foldl (fun d p => updateApiDict st d p.1 p.2) d0


/-- End-to-end scenario state (spec §8): `LoadLibraryA("shell32.dll")`
followed by `GetProcAddress(hLib, "IsUserAnAdmin")`. -/
def demoFn : Fn := ⟨"FUN_00401000", [], "int FUN_00401000(void)"⟩

/-- Program state of the end-to-end scenario. -/
def demoSt : ProgState where
  code := fun n =>
    if n == "FUN_00401000" then
      [.assign "hLib" "LoadLibraryA(\"shell32.dll\")",
       .call "GetProcAddress" ["hLib", "\"IsUserAnAdmin\""]]
    else []
  fnsByName := fun _ => []
  loadLibFns := []
  callers := fun _ => []
  strings := []
  apiDb := none


/-! ## Definitions modelled from the claim text (for comparison with the
source-derived definitions above) -/

/-- Modelled from the claim text of C2 (spec §4.5, step 2): the first
qualifying callee under the same skip rules as `fhmGo`. -/
def firstQualifyingCallee (st : ProgState) (callingFn : Fn) (fn? : Option Fn) :
    List (String × List String) → Option (Fn × List String)
  | [] => none
  | (n, args) :: rest =>
    if fnSkip fn? n then
      firstQualifyingCallee st callingFn fn? rest
    else if n == callingFn.name then firstQualifyingCallee st callingFn fn? rest
    else
      match st.fnsByName n with
      | [] => firstQualifyingCallee st callingFn fn? rest
      | g :: _ =>
        if st.loadLibFns.contains g then some (g, args)
        else firstQualifyingCallee st callingFn fn? rest

/-- Modelled from the claim text of C2 (spec §4.5, step 2): "for the first
qualifying callee, find which of its call-site actual arguments textually
matches the handle, then recursively resolve inside that callee by treating
the matched formal parameter as the new handle expression and repeating
steps 1-2 on the own text of the callee".  The recursion asserted by the claim
needs a depth budget to be well defined. -/
def findHModuleClaimed (st : ProgState) :
    Nat → Fn → Code → Option Fn → String → String → Option SPRes
  | 0, _, _, _, _, _ => none
  | fuel + 1, callingFn, ctx, fn?, hModule, off =>
    match findLoadLibraryAssignment (LhsPat.exact hModule) ctx with
    | some lp => some lp
    | none =>
      match firstQualifyingCallee st callingFn fn? (enumInternalCalls ctx) with
      | none => none
      | some (g, args) =>
        match args.enum.findSome? (fun p =>
            if substrOf hModule p.2 || substrOf p.2 hModule then some p.1 else none) with
        | none => none
        | some idx =>
          match getFunctionParamS g (st.code g.name) idx with
          | none => none
          | some hp => findHModuleClaimed st fuel g (st.code g.name) (some g) hp off

/-- Modelled from the claim text of C4 (spec §4.6): scan the internal
function calls of the preceding slice backwards, excluding the current
function, and return the literal string argument of the most recent call
whose actual-argument list contains both a literal string and an argument
matching the reference name. -/
def resolveApiNameClaimed (fname : String) (calls : List (String × List String))
    (refName : String) : Option String :=
  calls.findSome? (fun p =>
    if p.1 == fname then none
    else if (p.2.any (fun a => substrOf refName a)) &&
        (p.2.any (fun a => (stringParam a).isLiteral)) then
      p.2.findSome? (fun a => (stringParam a).valueOpt)
    else none)

/-! ## Fixtures for the per-claim concrete statements -/

/-- C2 fixture: the function containing the `GetProcAddress` call. -/
def c2FnA : Fn := ⟨"FUN_a", [], ""⟩

/-- C2 fixture: the intermediate callee receiving the handle pointer. -/
def c2FnB : Fn := ⟨"FUN_b", ["param_1"], ""⟩

/-- C2 fixture: the second-hop callee that actually calls LoadLibrary. -/
def c2FnC : Fn := ⟨"FUN_c", ["ppm"], ""⟩

/-- C2 fixture: `FUN_b` forwards its handle parameter to `FUN_c`, which
performs the LoadLibrary assignment; resolving therefore needs step 2 to be
repeated inside the callee. -/
def c2St : ProgState where
  code := fun n =>
    if n == "FUN_b" then [.call "FUN_c" ["param_1"]]
    else if n == "FUN_c" then [.assign "*ppm" "LoadLibraryA(\"kernel32.dll\")"]
    else []
  fnsByName := fun n =>
    if n == "FUN_b" then [c2FnB] else if n == "FUN_c" then [c2FnC] else []
  loadLibFns := [c2FnB, c2FnC]
  callers := fun _ => []
  strings := []
  apiDb := none

/-- C2 fixture: the preceding slice of the `GetProcAddress` call, which
passes the address of the handle to `FUN_b`. -/
def c2Ctx : Code := [.call "FUN_b" ["&hLib"]]


/-- C4 fixture: an internal call that copies an API-name literal into the
buffer later passed to `GetProcAddress`. -/
def c4Ctx : Code := [.call "FUN_c" ["\"GetFileTime\"", "lpName"]]


/-- C1 fixture: a database listing two candidate DLLs for `GetUserNameA`,
both of which have matching string literals in the binary. -/
def c1St : ProgState where
  code := fun _ => []
  fnsByName := fun _ => []
  loadLibFns := []
  callers := fun _ => []
  strings := ["advapi32", "secur32"]
  apiDb := some [("GetUserNameA", ["advapi32", "secur32"])]

/-- C5 fixture: the function containing the `GetProcAddress` call. -/
def c5FnA : Fn := ⟨"FUN_5a", [], ""⟩

/-- C5 fixture: the single intermediate function that receives the handle
pointer and performs the LoadLibrary assignment itself. -/
def c5FnB : Fn := ⟨"FUN_5b", ["param_1"], ""⟩

/-- C5 fixture: one-intermediate-hop program state. -/
def c5St : ProgState where
  code := fun n =>
    if n == "FUN_5b" then [.assign "*param_1" "LoadLibraryA(\"user32.dll\")"] else []
  fnsByName := fun n => if n == "FUN_5b" then [c5FnB] else []
  loadLibFns := [c5FnB]
  callers := fun _ => []
  strings := []
  apiDb := none

/-- C5 fixture: the preceding slice passing the address of the handle to the
intermediate function. -/
def c5Ctx : Code := [.call "FUN_5b" ["&hLib"]]

/-- The per-callee step of the loop of `__find_h_module` as a single function:
`none` when the callee is skipped (function under analysis, calling
function, unknown name, or no LoadLibrary-family reference), otherwise the
result of the direct assignment search inside the callee. -/
def fhmStep (st : ProgState) (cf : Fn) (fn? : Option Fn) (hModule off : String)
    (p : String × List String) : Option SPRes :=
  if fnSkip fn? p.1 then none
  else if p.1 == cf.name then none
  else
    match st.fnsByName p.1 with
    | [] => none
    | g :: _ =>
      if !(st.loadLibFns.contains g) then none
      else findHModuleAssignment st g p.2 hModule off

/-- No assignment construct occurs in a body. -/
def noAssigns (code : Code) : Bool :=
  code.all (fun s => match s with | .assign _ _ => false | _ => true)

/-- C10 fixture: the decompiler collaborator, returning the same text for
every function object. -/
def c10Dec : Fn → Option String := fun _ => some "undefined4 FUN_1(int cached_param)\x7b\x7d"

/-- C10 fixture: a function object named FUN_1 with no parameter metadata. -/
def c10F1 : Fn := ⟨"FUN_1", [], "u"⟩

/-- C10 fixture: a distinct function object with the same name and its own
parameter metadata. -/
def c10F2 : Fn := ⟨"FUN_1", ["own_param"], "u"⟩

/-- C10 fixture: cache after decompiling the first function. -/
def c10Cache1 : DecompCache := (decompileFunction c10Dec [] c10F1).cache

/-- C10 fixture: the cached text of the first function. -/
def c10Text : String := (decompileFunction c10Dec [] c10F1).code

/-- C10 fixture: cache after the parameter list of FUN_1 was derived from
the text of the first function and cached. -/
def c10Cache2 : DecompCache := (getFunctionParamC c10Cache1 c10F1 c10Text 0).2

/-- Does the dictionary have the key (observation used to compare runs)? -/
def hasKeyA (d : ApiDict) (k : String) : Bool := d.any (fun p => p.1 == k)

/-- Does the dictionary associate the api name with the dll key? -/
def memApiA (d : ApiDict) (k a : String) : Bool :=
  d.any (fun p => p.1 == k && p.2.contains a)

/-- Two dictionaries are equal as mappings of dll keys to api-name sets. -/
def apiDictEquiv (d1 d2 : ApiDict) : Prop :=
  ∀ k a, memApiA d1 k a = memApiA d2 k a ∧ hasKeyA d1 k = hasKeyA d2 k

/-- The normalized key an `__update_api_dict` call will write to, if any. -/
def resolvedDllKey (st : ProgState) (dll? : Option String) (apiName : String) :
    Option String :=
  match (match dll? with | some x => some x | none => resolveDllFromDb st apiName) with
  | none => none
  | some dll => some (normalizeDll dll)

/-- C9 fixture: first function with a direct dynamic import. -/
def c9FnA : Fn := ⟨"FUN_9a", [], ""⟩

/-- C9 fixture: second function with a direct dynamic import. -/
def c9FnB : Fn := ⟨"FUN_9b", [], ""⟩

/-- C9 fixture: a state in which both functions contribute an entry. -/
def c9St : ProgState where
  code := fun n =>
    if n == "FUN_9a" then
      [.assign "h1" "LoadLibraryA(\"user32.dll\")",
       .call "GetProcAddress" ["h1", "\"MessageBoxA\""]]
    else if n == "FUN_9b" then
      [.assign "h2" "LoadLibraryA(\"kernel32.dll\")",
       .call "GetProcAddress" ["h2", "\"Beep\""]]
    else []
  fnsByName := fun _ => []
  loadLibFns := []
  callers := fun _ => []
  strings := []
  apiDb := none

/-- Every capture a matcher can produce satisfies `Q`. -/
def MtchAll (m : Mtch α) (Q : α → Prop) : Prop :=
  ∀ cs r, r ∈ m cs → Q r.1

/-! ## Sanity checks: concrete evaluations of the embedding -/

example : stringParam "\"kernel32.dll\"" = .literal "kernel32.dll" := by decide
example : stringParam "L\"MessageBoxW\"" = .literal "MessageBoxW" := by decide
example : stringParam "*(char *)local_8" = .reference "local_8" := by decide
example : stringParam "(HMODULE)hLib" = .reference "hLib" := by decide
example : stringParam "(int)this + 0x1c" = .reference "this" := by decide
example : stringParam "" = .reference "" := by decide

example :
    (decompileFunction (fun _ => none) [] ⟨"FUN_0", [], "void FUN_0(void)"⟩).code
      = "void FUN_0(void)\x7b\x7d" := by decide
example :
    repairExrefs "pcVar1 = GetProcAddress_exref;uVar2 = (*(code *)pcVar1)(h,s);"
      = "pcVar1 = GetProcAddress_exref;uVar2 =GetProcAddress(h,s);" := by decide
example : textParams "FUN_1" "undefined4 FUN_1(int a,char *b)\x7b return 0; \x7d"
    = some ["int a", "char *b"] := by decide

example : findStringLiteralParam ["buf", "\"GetFileTime\""] "buf" =
    some (.literal "GetFileTime") := by decide
example : findStringLiteralParam ["\"GetFileTime\"", "buf"] "buf" =
    some (.literal "GetFileTime") := by decide
example : findStringLiteralParam ["\"GetFileTime\"", "x", "buf"] "buf" = none := by decide

example : normalizeDll "user32" = "user32.dll" := by decide
example : normalizeDll "WINSPOOL.DRV" = "winspool.drv" := by decide
example : insertApi (insertApi [] "a.dll" "X") "a.dll" "X" = [("a.dll", ["X"])] := by decide

example : crawlDynamicImports demoSt [demoFn] [] = [("shell32.dll", ["IsUserAnAdmin"])] := by
  decide

/-- C9 counterexample fixture: a function whose `GetProcAddress` and
LoadLibrary arguments are both formal parameters of the enclosing function,
so resolution goes through `__enumerate_call_params`. -/
def c9xF : Fn := ⟨"FUN_f", ["lpLib", "lpProc"], ""⟩

/-- C9 counterexample fixture: a caller passing both arguments as literals. -/
def c9xCA : Fn := ⟨"FUN_ca", [], ""⟩

/-- C9 counterexample fixture: a caller passing an unresolvable dll
argument together with the literal api name. -/
def c9xCB : Fn := ⟨"FUN_cb", [], ""⟩

/-- C9 counterexample fixture: the name-keyed decompiled texts. -/
def c9xCode : String → Code := fun n =>
  if n == "FUN_f" then
    [.assign "h" "LoadLibraryA(lpLib)", .call "GetProcAddress" ["h", "lpProc"]]
  else if n == "FUN_ca" then [.call "FUN_f" ["\"advapi32.dll\"", "\"GetUserNameA\""]]
  else if n == "FUN_cb" then [.call "FUN_f" ["uVar1", "\"GetUserNameA\""]]
  else []

/-- C9 counterexample fixture: the program state with one iteration order
of the calling-functions set. -/
def c9xSt1 : ProgState where
  code := c9xCode
  fnsByName := fun _ => []
  loadLibFns := []
  callers := fun g => if g.name == "FUN_f" then [c9xCA, c9xCB] else []
  strings := ["secur32"]
  apiDb := some [("GetUserNameA", ["secur32"])]

/-- C9 counterexample fixture: the same program state with the other
iteration order of the same calling-functions set. -/
def c9xSt2 : ProgState :=
  { c9xSt1 with callers := fun g => if g.name == "FUN_f" then [c9xCB, c9xCA] else [] }

/-! ## Helper lemmas about the matcher -/

theorem mtchAll_trivial {m : Mtch α} : MtchAll m (fun _ => True) := by
  intro _ _ _; trivial

theorem mtchAll_pure {Q : α → Prop} {a : α} (h : Q a) : MtchAll (pure a : Mtch α) Q := by
  intro cs r hr
  have hr' : r ∈ [(a, cs)] := hr
  simp at hr'
  subst hr'
  exact h

theorem mtchAll_bind {m : Mtch α} {f : α → Mtch β} {P : α → Prop} {Q : β → Prop}
    (hm : MtchAll m P) (hf : ∀ a, P a → MtchAll (f a) Q) : MtchAll (m >>= f) Q := by
  intro cs r hr
  have hr' : r ∈ (m cs).flatMap (fun x => f x.1 x.2) := hr
  obtain ⟨x, hx, hfx⟩ := List.mem_flatMap.1 hr'
  exact hf x.1 (hm cs x hx) x.2 r hfx

theorem mlazyPlus_ne_nil {p : Char → Bool} : MtchAll (mlazyPlus p) (fun l => l ≠ []) := by
  intro cs
  induction cs with
  | nil => intro r hr; simp [mlazyPlus] at hr
  | cons c rest ih =>
    intro r hr
    unfold mlazyPlus at hr
    by_cases hc : p c
    · rw [if_pos hc] at hr
      rcases List.mem_cons.1 hr with h | h
      · rw [h]; simp
      · obtain ⟨r', _, rfl⟩ := List.mem_map.1 h
        simp
    · rw [if_neg hc] at hr
      simp at hr

theorem stringLitM_ne_empty : MtchAll stringLitM (fun v => v ≠ "") := by
  unfold stringLitM
  refine mtchAll_bind mtchAll_trivial (fun _ _ => ?_)
  refine mtchAll_bind mtchAll_trivial (fun _ _ => ?_)
  refine mtchAll_bind mtchAll_trivial (fun _ _ => ?_)
  refine mtchAll_bind mlazyPlus_ne_nil (fun content hc => ?_)
  refine mtchAll_bind mtchAll_trivial (fun _ _ => ?_)
  refine mtchAll_pure ?_
  intro h
  apply hc
  have := congrArg String.data h
  simpa using this

theorem identM_ne_empty : MtchAll identM (fun v => v ≠ "") := by
  unfold identM
  refine mtchAll_bind mtchAll_trivial (fun c _ => ?_)
  refine mtchAll_bind mtchAll_trivial (fun rest _ => ?_)
  refine mtchAll_pure ?_
  intro h
  have := congrArg String.data h
  simp at this

theorem varRefM_ne_empty : MtchAll varRefM (fun v => v ≠ "") := by
  unfold varRefM
  exact mtchAll_bind mtchAll_trivial (fun _ _ => identM_ne_empty)

theorem matchAt_capture {m : Mtch α} {Q : α → Prop} (hm : MtchAll m Q) {cs : List Char}
    {r : α × List Char} (h : matchAt m cs = some r) : Q r.1 := by
  unfold matchAt at h
  cases hl : m cs with
  | nil => rw [hl] at h; simp at h
  | cons x xs =>
    rw [hl] at h
    simp at h
    rw [← h]
    exact hm cs x (by rw [hl]; exact List.mem_cons_self x xs)

theorem matchStringRegex_ne_empty {p v : String} (h : matchStringRegex p = some v) :
    v ≠ "" := by
  unfold matchStringRegex at h
  cases hm : matchAt stringLitM p.data with
  | none => rw [hm] at h; simp at h
  | some r =>
    rw [hm] at h
    simp at h
    rw [← h]
    exact matchAt_capture stringLitM_ne_empty hm

theorem matchVarRegex_ne_empty {p v : String} (h : matchVarRegex p = some v) :
    v ≠ "" := by
  unfold matchVarRegex at h
  cases hm : matchAt varRefM p.data with
  | none => rw [hm] at h; simp at h
  | some r =>
    rw [hm] at h
    simp at h
    rw [← h]
    exact matchAt_capture varRefM_ne_empty hm

/-! ## Claims C7 and C8: the Expression Classifier -/

/-- C7: the classifier is a total function producing exactly one of
`literal` (exactly when the quoted-string pattern matches, holding the
quoted contents) or `reference` (holding the identifier match, or the
entire fragment when neither pattern matches); it never produces both and
never neither. -/
theorem c7_classifier_exclusive (p : String) :
    ((∃ v, stringParam p = SPRes.literal v) ↔ (matchStringRegex p).isSome = true)
    ∧ (∀ v, stringParam p = SPRes.literal v → matchStringRegex p = some v)
    ∧ (¬ ((∃ v, stringParam p = SPRes.literal v) ∧ (∃ n, stringParam p = SPRes.reference n)))
    ∧ (matchStringRegex p = none →
        stringParam p = SPRes.reference ((matchVarRegex p).getD p)) := by
  refine ⟨⟨?_, ?_⟩, ?_, ?_, ?_⟩
  · rintro ⟨v, hv⟩
    unfold stringParam at hv
    cases h : matchStringRegex p with
    | some w => simp [h]
    | none =>
      rw [h] at hv
      cases h2 : matchVarRegex p with
      | some n => rw [h2] at hv; cases hv
      | none => rw [h2] at hv; cases hv
  · intro h
    cases h3 : matchStringRegex p with
    | some v => exact ⟨v, by unfold stringParam; rw [h3]⟩
    | none => rw [h3] at h; simp at h
  · intro v hv
    unfold stringParam at hv
    cases h : matchStringRegex p with
    | some w =>
      rw [h] at hv
      cases hv
      rfl
    | none =>
      rw [h] at hv
      cases h2 : matchVarRegex p with
      | some n => rw [h2] at hv; cases hv
      | none => rw [h2] at hv; cases hv
  · rintro ⟨⟨v, hv⟩, ⟨n, hn⟩⟩
    rw [hv] at hn
    cases hn
  · intro h
    unfold stringParam
    rw [h]
    cases h2 : matchVarRegex p with
    | some n => simp [h2]
    | none => simp [h2]

/-- Witness for C7 at concrete fragments. -/
theorem c7_witness :
    matchStringRegex "123" = none ∧
    stringParam "123" = SPRes.reference ((matchVarRegex "123").getD "123") :=
  ⟨by decide, (c7_classifier_exclusive "123").2.2.2 (by decide)⟩

/-- C8 counterexample: on the empty fragment the fallback keeps the whole
(empty) fragment as the reference name, so an empty name is produced. -/
theorem c8_counterexample : stringParam "" = SPRes.reference "" := by decide

/-- C8 (amended): for every non-empty input fragment the classifier
produces a non-empty literal value or reference name (the literal value is
in fact non-empty for every input). -/
theorem c8_amended_nonempty (p : String) (hp : p ≠ "") :
    (∀ v, stringParam p = SPRes.literal v → v ≠ "") ∧
    (∀ n, stringParam p = SPRes.reference n → n ≠ "") := by
  constructor
  · intro v hv
    exact matchStringRegex_ne_empty ((c7_classifier_exclusive p).2.1 v hv)
  · intro n hn
    unfold stringParam at hn
    cases h : matchStringRegex p with
    | some w => rw [h] at hn; cases hn
    | none =>
      rw [h] at hn
      cases h2 : matchVarRegex p with
      | some m =>
        rw [h2] at hn
        cases hn
        exact matchVarRegex_ne_empty h2
      | none =>
        rw [h2] at hn
        cases hn
        exact hp

/-- Witness for C8 (amended) at a concrete fragment: the reference name
produced for the fragment "pvar" is non-empty. -/
theorem c8_witness : ("pvar" : String) ≠ "" :=
  (c8_amended_nonempty "pvar" (by decide)).2 "pvar" (by decide)

/-! ## Claim C1: API Database Disambiguator -/

/-- C1: with the database present and listing the API name, if exactly one
candidate DLL has a matching defined string literal the emitted pair uses
that DLL (under the usual key normalization); with zero or several matching
candidates the dictionary is left unchanged — nothing is emitted via the
database path. -/
theorem c1_db_disambiguation (st : ProgState) (d : ApiDict) (apiName : String)
    (db : List (String × List String)) (cands : List String)
    (hdb : st.apiDb = some db) (hc : db.lookup apiName = some cands) :
    ((cands.filter (dbMatchesLiteral st.strings)).length = 1 →
      ∃ dl, cands.filter (dbMatchesLiteral st.strings) = [dl] ∧
        updateApiDict st d none apiName = insertApi d (normalizeDll dl) apiName)
    ∧ ((cands.filter (dbMatchesLiteral st.strings)).length ≠ 1 →
      updateApiDict st d none apiName = d) := by
  have hres : resolveDllFromDb st apiName =
      (if (cands.filter (dbMatchesLiteral st.strings)).length == 1
       then (cands.filter (dbMatchesLiteral st.strings)).head? else none) := by
    unfold resolveDllFromDb
    rw [hdb]
    dsimp only
    rw [hc]
  constructor
  · intro h1
    obtain ⟨dl, hdl⟩ := List.length_eq_one.1 h1
    refine ⟨dl, hdl, ?_⟩
    show (match (match (none : Option String) with
          | some x => some x
          | none => resolveDllFromDb st apiName) with
        | none => d
        | some dll => insertApi d (normalizeDll dll) apiName) =
      insertApi d (normalizeDll dl) apiName
    rw [hres, hdl]
    simp
  · intro h1
    have hb : ((cands.filter (dbMatchesLiteral st.strings)).length == 1) = false := by
      simpa using h1
    show (match (match (none : Option String) with
          | some x => some x
          | none => resolveDllFromDb st apiName) with
        | none => d
        | some dll => insertApi d (normalizeDll dll) apiName) = d
    rw [hres, hb]
    simp

/-- Witness for C1: with two candidates both matching a literal, the
dictionary is unchanged. -/
theorem c1_witness : updateApiDict c1St [] none "GetUserNameA" = [] :=
  (c1_db_disambiguation c1St [] "GetUserNameA"
    [("GetUserNameA", ["advapi32", "secur32"])] ["advapi32", "secur32"]
    rfl rfl).2 (by decide)

/-! ## Claim C3: key normalization and ApiDict invariants -/

theorem endsWithKnownExt_normalizeDll (s : String) :
    endsWithKnownExt (normalizeDll s) = true := by
  unfold normalizeDll
  by_cases h : endsWithKnownExt (strToLower s)
  · rw [if_pos h]; exact h
  · rw [if_neg h]
    unfold endsWithKnownExt
    have hsfx : (".dll".data).isSuffixOf (strToLower s ++ ".dll").data = true := by
      rw [List.isSuffixOf_iff_suffix, String.data_append]
      exact List.suffix_append _ _
    rw [hsfx]
    simp

theorem insertApi_key_mem {d : ApiDict} {k a : String} :
    ∀ p ∈ insertApi d k a, p.1 = k ∨ ∃ q ∈ d, p.1 = q.1 := by
  induction d with
  | nil =>
    intro p hp
    unfold insertApi at hp
    simp at hp
    left
    rw [hp]
  | cons e rest ih =>
    intro p hp
    unfold insertApi at hp
    by_cases h : e.1 == k
    · rw [if_pos h] at hp
      rcases List.mem_cons.1 hp with h2 | h2
      · right; exact ⟨e, List.mem_cons_self e rest, by rw [h2]⟩
      · right; exact ⟨p, List.mem_cons_of_mem e h2, rfl⟩
    · rw [if_neg h] at hp
      rcases List.mem_cons.1 hp with h2 | h2
      · right; exact ⟨e, List.mem_cons_self e rest, by rw [h2]⟩
      · rcases ih p h2 with h3 | ⟨q, hq, h3⟩
        · left; exact h3
        · right; exact ⟨q, List.mem_cons_of_mem e hq, h3⟩

theorem insertApi_nodup {d : ApiDict} {k a : String}
    (hd : ∀ p ∈ d, p.2.Nodup) : ∀ p ∈ insertApi d k a, p.2.Nodup := by
  induction d with
  | nil =>
    intro p hp
    unfold insertApi at hp
    simp at hp
    rw [hp]
    simp
  | cons e rest ih =>
    intro p hp
    unfold insertApi at hp
    by_cases h : e.1 == k
    · rw [if_pos h] at hp
      rcases List.mem_cons.1 hp with h2 | h2
      · rw [h2]
        by_cases hc : e.2.contains a
        · rw [if_pos hc]
          exact hd e (List.mem_cons_self e rest)
        · rw [if_neg hc]
          rw [List.nodup_append]
          refine ⟨hd e (List.mem_cons_self e rest), List.nodup_singleton a, ?_⟩
          intro x hx hx1
          rw [List.mem_singleton.1 hx1] at hx
          exact hc (List.elem_eq_true_of_mem hx)
      · exact hd p (List.mem_cons_of_mem e h2)
    · rw [if_neg h] at hp
      rcases List.mem_cons.1 hp with h2 | h2
      · rw [h2]; exact hd e (List.mem_cons_self e rest)
      · exact ih (fun q hq => hd q (List.mem_cons_of_mem e hq)) p h2

theorem insertApi_lookup_mem {d : ApiDict} {k a : String} :
    ∃ apis, (insertApi d k a).lookup k = some apis ∧ a ∈ apis := by
  induction d with
  | nil =>
    refine ⟨[a], ?_, List.mem_singleton_self a⟩
    unfold insertApi
    simp [List.lookup]
  | cons e rest ih =>
    unfold insertApi
    by_cases h : e.1 == k
    · have hk : (k == e.1) = true := by
        rw [eq_of_beq h]
        exact beq_self_eq_true k
      rw [if_pos h]
      by_cases hc : e.2.contains a
      · rw [if_pos hc]
        refine ⟨e.2, ?_, List.mem_of_elem_eq_true hc⟩
        simp [List.lookup, hk]
      · rw [if_neg hc]
        refine ⟨e.2 ++ [a], ?_, by simp⟩
        simp [List.lookup, hk]
    · have hk : (k == e.1) = false := by
        apply beq_eq_false_iff_ne.2
        intro he
        apply h
        rw [he]
        exact beq_self_eq_true e.1
      rw [if_neg h]
      obtain ⟨apis, h1, h2⟩ := ih
      refine ⟨apis, ?_, h2⟩
      simp [List.lookup, hk]
      exact h1

/-- C3: the emitted key is the lower-cased DLL name with `.dll` appended
exactly when the lowered name does not already carry one of the known
extensions; after any update every key of the dictionary carries a known
extension and every per-key api set is duplicate-free; and an update with a
resolved DLL stores the api name, case intact, under the normalized key. -/
theorem c3_extension_normalization (st : ProgState) (d : ApiDict) (dll? : Option String)
    (api : String)
    (hkeys : ∀ p ∈ d, endsWithKnownExt p.1 = true)
    (hnodup : ∀ p ∈ d, p.2.Nodup) :
    (∀ s : String, normalizeDll s =
        if endsWithKnownExt (strToLower s) then strToLower s else strToLower s ++ ".dll")
    ∧ (∀ p ∈ updateApiDict st d dll? api, endsWithKnownExt p.1 = true ∧ p.2.Nodup)
    ∧ (∀ s, dll? = some s →
        ∃ apis, (updateApiDict st d dll? api).lookup (normalizeDll s) = some apis ∧
          api ∈ apis) := by
  refine ⟨fun s => rfl, ?_, ?_⟩
  · intro p hp
    unfold updateApiDict at hp
    cases hres : (match dll? with
        | some x => some x
        | none => resolveDllFromDb st api) with
    | none =>
      rw [hres] at hp
      exact ⟨hkeys p hp, hnodup p hp⟩
    | some dll =>
      rw [hres] at hp
      constructor
      · rcases insertApi_key_mem p hp with h | ⟨q, hq, h⟩
        · rw [h]; exact endsWithKnownExt_normalizeDll dll
        · rw [h]; exact hkeys q hq
      · exact insertApi_nodup hnodup p hp
  · intro s hs
    unfold updateApiDict
    rw [hs]
    exact insertApi_lookup_mem

/-- Witness for C3 at a concrete update. -/
theorem c3_witness :
    (∀ p ∈ updateApiDict demoSt [("winspool.drv", ["OpenPrinterA"])] (some "User32") "MessageBoxA",
      endsWithKnownExt p.1 = true ∧ p.2.Nodup) ∧
    (∃ apis, (updateApiDict demoSt [("winspool.drv", ["OpenPrinterA"])] (some "User32")
        "MessageBoxA").lookup (normalizeDll "User32") = some apis ∧ "MessageBoxA" ∈ apis) :=
  ⟨(c3_extension_normalization demoSt [("winspool.drv", ["OpenPrinterA"])] (some "User32")
      "MessageBoxA" (by decide) (by decide)).2.1,
   (c3_extension_normalization demoSt [("winspool.drv", ["OpenPrinterA"])] (some "User32")
      "MessageBoxA" (by decide) (by decide)).2.2 "User32" rfl⟩

/-! ## Claim C5: single-hop inter-procedural resolution and termination -/

/-- C5: the handle resolution procedure is a total function of the program
state (no call in the embedded chain re-enters `findHModule`, so it
terminates on every finite program state, including self- or
caller-forwarding call texts), and a handle passed through exactly one
intermediate function resolves to the DLL literal assigned inside it. -/
theorem c5_single_hop (st : ProgState) (callerFn g : Fn) (ctx : Code)
    (hModule off lit p arg : String)
    (h0 : findLoadLibraryAssignment (LhsPat.exact hModule) ctx = none)
    (h1 : enumInternalCalls ctx = [(g.name, [arg])])
    (h2 : (g.name == callerFn.name) = false)
    (h3 : st.fnsByName g.name = [g])
    (h4 : st.loadLibFns.contains g = true)
    (h5 : (substrOf hModule arg || substrOf arg hModule) = true)
    (h6 : getFunctionParamS g (st.code g.name) 0 = some p)
    (h7 : findAliasFor (st.code g.name) p = none)
    (h8 : findLoadLibraryAssignment (LhsPat.casted p off) (st.code g.name)
        = some (SPRes.literal lit)) :
    findHModule st callerFn ctx none hModule off = some (SPRes.literal lit) := by
  have hA : findHModule st callerFn ctx none hModule off
      = fhmGo st callerFn none hModule off [(g.name, [arg])] := by
    unfold findHModule
    rw [h0, h1]
  have hB : findHModuleAssignment st g [arg] hModule off = some (SPRes.literal lit) := by
    unfold findHModuleAssignment
    show fhmaGo st g [arg] hModule off [(0, arg)] = some (SPRes.literal lit)
    unfold fhmaGo
    rw [h5]
    simp only [Bool.not_true, Bool.false_eq_true, if_false]
    rw [h6]
    dsimp only
    rw [h7]
    dsimp only
    rw [h8]
    simp [SPRes.isLiteral]
  rw [hA]
  unfold fhmGo
  rw [h2, h3]
  simp only [Bool.false_eq_true, if_false]
  rw [h4]
  simp only [Bool.not_true, Bool.false_eq_true, if_false]
  rw [hB]
  rfl

/-- Witness for C5: the concrete one-intermediate-hop state resolves. -/
theorem c5_witness :
    findHModule c5St c5FnA c5Ctx none "hLib" "" = some (SPRes.literal "user32.dll") :=
  c5_single_hop c5St c5FnA c5FnB c5Ctx "hLib" "" "user32.dll" "param_1" "&hLib"
    (by decide) (by decide) (by decide) (by decide) (by decide) (by decide)
    (by decide) (by decide) (by decide)

/-! ## Claim C2: the recursion depth of the Handle Resolver -/

theorem fhmGo_eq_findSome (st : ProgState) (cf : Fn) (fn? : Option Fn)
    (hModule off : String) (l : List (String × List String)) :
    fhmGo st cf fn? hModule off l = l.findSome? (fhmStep st cf fn? hModule off) := by
  induction l with
  | nil => rfl
  | cons x rest ih =>
    rcases x with ⟨n, args⟩
    rw [List.findSome?_cons]
    unfold fhmGo fhmStep
    by_cases hs1 : fnSkip fn? n = true
    · rw [if_pos hs1, if_pos hs1]
      exact ih
    · rw [if_neg hs1, if_neg hs1]
      by_cases hs2 : (n == cf.name) = true
      · rw [if_pos hs2, if_pos hs2]
        exact ih
      · rw [if_neg hs2, if_neg hs2]
        cases hfb : st.fnsByName n with
        | nil => exact ih
        | cons g gs =>
          dsimp only
          by_cases hs3 : (!(st.loadLibFns.contains g)) = true
          · rw [if_pos hs3, if_pos hs3]
            exact ih
          · rw [if_neg hs3, if_neg hs3]
            cases findHModuleAssignment st g args hModule off with
            | some lp => rfl
            | none => exact ih

theorem noAssigns_findLoadLib {code : Code} (h : noAssigns code = true) (pat : LhsPat) :
    findLoadLibraryAssignment pat code = none := by
  have hall := List.all_eq_true.1 h
  have hml : lastAssignTo pat code = none := by
    unfold lastAssignTo
    have : code.enum.filterMap (fun p =>
        match p.2 with
        | .assign l r => if pat.matchesLhs l && isIdentStr r then some (p.1, r) else none
        | _ => none) = ([] : List (Nat × String)) := by
      apply List.filterMap_eq_nil_iff.2
      intro x hx
      have hx2 := hall x.2 (List.snd_mem_of_mem_enum hx)
      cases hs : x.2 with
      | assign l r => rw [hs] at hx2; simp at hx2
      | call c args => rfl
    rw [this]
    rfl
  unfold findLoadLibraryAssignment
  rw [hml]
  dsimp only
  have hnil : code.filterMap (fun s =>
      match s with
      | .assign l r => if pat.matchesLhs l then loadLibArg r else none
      | _ => none) = ([] : List String) := by
    apply List.filterMap_eq_nil_iff.2
    intro s hs
    have hs2 := hall s hs
    cases hc : s with
    | assign l r => rw [hc] at hs2; simp at hs2
    | call c args => rfl
  rw [hnil]
  rfl

theorem noAssigns_fhmaGo {st : ProgState} {g : Fn} {callParams : List String}
    {hModule off : String} (h : noAssigns (st.code g.name) = true) :
    ∀ l, fhmaGo st g callParams hModule off l = none := by
  intro l
  induction l with
  | nil => rfl
  | cons x rest ih =>
    rcases x with ⟨idx, cp⟩
    unfold fhmaGo
    by_cases hc : (!(substrOf hModule cp || substrOf cp hModule)) = true
    · rw [if_pos hc]
      exact ih
    · rw [if_neg hc]
      dsimp only
      cases hg : getFunctionParamS g (st.code g.name) idx with
      | none => rfl
      | some hp =>
        dsimp only
        rw [noAssigns_findLoadLib h]

/-- C2 counterexample: with the LoadLibrary assignment two hops away (the
first callee merely forwards the handle to a second function), the engine
leaves the handle unresolved, while the claimed behaviour — repeating both
step 1 and step 2 inside the callee — would resolve it. -/
theorem c2_counterexample :
    findHModule c2St c2FnA c2Ctx none "hLib" "" = none ∧
    findHModuleClaimed c2St 3 c2FnA c2Ctx none "hLib" "" =
      some (SPRes.literal "kernel32.dll") :=
  ⟨by decide, by decide⟩

/-- C2 (amended): when the direct assignment search fails, the resolver
tries the qualifying callees most-recent-first and, inside each, applies
only the direct assignment search (step 1, with alias substitution); it
does not enumerate the internal calls of the callee, so a callee whose body
contains no assignment contributes nothing even when a two-hop resolution
would succeed. -/
theorem c2_amended_step1_only (st : ProgState) (cf : Fn) (ctx : Code) (fn? : Option Fn)
    (hModule off : String) :
    (findLoadLibraryAssignment (LhsPat.exact hModule) ctx = none →
      findHModule st cf ctx fn? hModule off =
        (enumInternalCalls ctx).findSome? (fhmStep st cf fn? hModule off))
    ∧ (∀ g args, noAssigns (st.code g.name) = true →
        findHModuleAssignment st g args hModule off = none) := by
  constructor
  · intro h0
    unfold findHModule
    rw [h0]
    exact fhmGo_eq_findSome st cf fn? hModule off (enumInternalCalls ctx)
  · intro g args h
    unfold findHModuleAssignment
    exact noAssigns_fhmaGo h args.enum

/-- Witness for C2 (amended) at the concrete two-hop state. -/
theorem c2_amended_witness :
    (findHModule c2St c2FnA c2Ctx none "hLib" "" =
      (enumInternalCalls c2Ctx).findSome? (fhmStep c2St c2FnA none "hLib" ""))
    ∧ findHModuleAssignment c2St c2FnB ["&hLib"] "hLib" "" = none :=
  ⟨(c2_amended_step1_only c2St c2FnA c2Ctx none "hLib" "").1 (by decide),
   (c2_amended_step1_only c2St c2FnA c2Ctx none "hLib" "").2 c2FnB ["&hLib"] (by decide)⟩

/-! ## Claim C4: the scan of the Name Resolver -/

theorem fslpGo_literal (varName : String) :
    ∀ (l : List String) (vf : Bool) (sp : Option SPRes) (s : SPRes),
      fslpGo varName l vf sp = some s → s.isLiteral = true := by
  intro l
  induction l with
  | nil =>
    intro vf sp s h
    cases h
  | cons p rest ih =>
    intro vf sp s h
    unfold fslpGo at h
    by_cases hsub : substrOf varName p = true
    · rw [if_pos hsub] at h
      split at h
      · rename_i hc
        rw [h] at hc
        exact hc
      · exact ih _ _ _ h
    · rw [if_neg hsub] at h
      split at h
      · rename_i hc
        cases h
        rw [Bool.and_eq_true] at hc
        exact hc.2
      · exact ih _ _ _ h

theorem ranGo_eq_findSome (fname refName : String) (l : List (String × List String)) :
    ranGo fname refName l = l.findSome? (ranStep fname refName) := by
  induction l with
  | nil => rfl
  | cons x rest ih =>
    rcases x with ⟨n, ps⟩
    rw [List.findSome?_cons]
    unfold ranGo ranStep
    by_cases hs1 : matchesInternalStart n = true
    · rw [if_pos hs1, if_pos hs1]
      exact ih
    · rw [if_neg hs1, if_neg hs1]
      by_cases hs2 : (n == fname) = true
      · rw [if_pos hs2, if_pos hs2]
        exact ih
      · rw [if_neg hs2, if_neg hs2]
        cases hf : findStringLiteralParam ps refName with
        | none => exact ih
        | some s =>
          dsimp only
          by_cases hl : s.isLiteral = true
          · rw [if_pos hl, if_pos hl]
            cases s with
            | literal v => rfl
            | reference nm => cases hl
          · rw [if_neg hl, if_neg hl]
            exact ih

/-- C4 counterexample: an internal call carrying both the matching
reference argument and a literal API name is skipped by the scan of the engine
(no api name is produced), while the claimed behaviour would return the
literal. -/
theorem c4_counterexample :
    resolveApiName "FUN_a" c4Ctx "lpName" = none ∧
    resolveApiNameClaimed "FUN_a" (enumInternalCalls c4Ctx) "lpName" = some "GetFileTime" :=
  ⟨by decide, by decide⟩

/-- C4 (amended): for a reference-classified API-name argument, the scan
runs backwards over the calls enumerated by the copy-API/internal call
pattern, skips any call whose name bears an internal-function prefix (so
internal calls never qualify) or equals the current function, and returns
the first result of the co-location helper — which only ever returns a
literal, and requires the literal to be the most recently classified
non-matching argument when the reference has been seen, not merely
co-located anywhere in the argument list. -/
theorem c4_amended_copy_calls (fname refName : String) (ctx : Code) :
    (resolveApiName fname ctx refName =
      (enumFunctionCalls ctx).findSome? (ranStep fname refName))
    ∧ (∀ params s, findStringLiteralParam params refName = some s →
        s.isLiteral = true) := by
  constructor
  · exact ranGo_eq_findSome fname refName (enumFunctionCalls ctx)
  · intro params s h
    exact fslpGo_literal refName params false none s h

/-- Witness for C4 (amended) at the concrete context. -/
theorem c4_witness :
    (resolveApiName "FUN_a" c4Ctx "lpName" =
      (enumFunctionCalls c4Ctx).findSome? (ranStep "FUN_a" "lpName"))
    ∧ (SPRes.literal "GetFileTime").isLiteral = true :=
  ⟨(c4_amended_copy_calls "FUN_a" "lpName" c4Ctx).1,
   (c4_amended_copy_calls "FUN_a" "lpName" c4Ctx).2 ["\"GetFileTime\"", "lpName"]
     (SPRes.literal "GetFileTime") (by decide)⟩

/-! ## Claim C6: decompiler-failure fallback of the cache -/

theorem repairExrefs_no_refs {code : String} (h : findExrefs code = []) :
    repairExrefs code = code := by
  unfold repairExrefs
  rw [h]
  rfl

theorem lookup_append_of_none {l : DecompCache} {k : String} {v : CacheEntry}
    (h : l.lookup k = none) : (l ++ [(k, v)]).lookup k = some v := by
  induction l with
  | nil => simp [List.lookup]
  | cons e rest ih =>
    rcases e with ⟨k1, v1⟩
    rw [List.cons_append]
    by_cases hb : (k == k1) = true
    · exfalso
      simp [List.lookup, hb] at h
    · have hb' : (k == k1) = false := by
        rcases Bool.eq_false_or_eq_true (k == k1) with h2 | h2
        · exact absurd h2 hb
        · exact h2
      have h2 : List.lookup k rest = none := by
        simp only [List.lookup, hb'] at h
        exact h
      simp only [List.lookup, hb']
      exact ih h2

/-- C6: on a decompiler failure for an uncached function, the get
operation of the cache returns the signature of the function followed by an empty body (when
the fallback text triggers no repair-pass rewriting), and it stores that
text in the cache so every later get for the name returns it; the operation
is total, so a decompiler failure never aborts the analysis. -/
theorem c6_failure_fallback (dec : Fn → Option String) (cache : DecompCache) (f : Fn)
    (hcold : cache.lookup f.name = none)
    (hfail : dec f = none)
    (hnorefs : findExrefs (f.signature ++ "\x7b\x7d") = []) :
    (decompileFunction dec cache f).code = f.signature ++ "\x7b\x7d"
    ∧ (decompileFunction dec cache f).cache.lookup f.name =
        some ⟨f.signature ++ "\x7b\x7d", none⟩ := by
  unfold decompileFunction
  rw [hcold, hfail]
  dsimp only
  rw [repairExrefs_no_refs hnorefs]
  exact ⟨rfl, lookup_append_of_none hcold⟩

/-- Witness for C6 at a concrete failing decompilation. -/
theorem c6_witness :
    (decompileFunction (fun _ => none) [] ⟨"FUN_6", [], "void FUN_6(void)"⟩).code
      = "void FUN_6(void)" ++ "\x7b\x7d"
    ∧ (decompileFunction (fun _ => none) [] ⟨"FUN_6", [], "void FUN_6(void)"⟩).cache.lookup
        "FUN_6" = some ⟨"void FUN_6(void)" ++ "\x7b\x7d", none⟩ :=
  c6_failure_fallback (fun _ => none) [] ⟨"FUN_6", [], "void FUN_6(void)"⟩
    rfl rfl (by decide)

/-! ## Claim C10: what the decompilation cache is keyed by -/

/-- C10 counterexample: two distinct function objects share the name FUN_1;
the text-derived parameter list of the first is cached under the name, yet
querying the parameter list for the second returns the own
metadata, not the cached list. -/
theorem c10_counterexample :
    (getFunctionParamC c10Cache1 c10F1 c10Text 0).1 = some "int cached_param" ∧
    (getFunctionParamC c10Cache2 c10F2 c10Text 0).1 = some "own_param" ∧
    ("own_param" : String) ≠ "int cached_param" :=
  ⟨by decide, by decide, by decide⟩

/-- C10 (amended): the decompiled text is cached by function name — for two
distinct function objects with equal names the text cached for whichever
was processed first is returned for both and the decompiler is invoked only
for the first (so at most once per name through the cache); the call-site
regex is likewise a function of the name alone; but the parameter list is
taken from the queried function object's own metadata whenever its
parameter count exceeds the index, the cached text-derived list serving
only as the fallback. -/
theorem c10_amended_name_key (dec : Fn → Option String) (cache : DecompCache) (f1 f2 : Fn)
    (hname : f1.name = f2.name) (hcold : cache.lookup f1.name = none) :
    ((decompileFunction dec cache f1).invoked = true)
    ∧ ((decompileFunction dec (decompileFunction dec cache f1).cache f2).invoked = false)
    ∧ ((decompileFunction dec (decompileFunction dec cache f1).cache f2).code
        = (decompileFunction dec cache f1).code)
    ∧ (∀ (c : DecompCache) (codeText : String) (idx : Nat), idx < f2.params.length →
        (getFunctionParamC c f2 codeText idx).1 = f2.params.get? idx) := by
  unfold decompileFunction
  rw [hcold]
  dsimp only
  rw [← hname]
  rw [lookup_append_of_none hcold]
  refine ⟨rfl, rfl, rfl, ?_⟩
  intro c codeText idx hidx
  unfold getFunctionParamC
  rw [if_pos hidx]

/-- Witness for C10 (amended) at the concrete same-name pair. -/
theorem c10_witness :
    ((decompileFunction c10Dec [] c10F1).invoked = true)
    ∧ ((decompileFunction c10Dec (decompileFunction c10Dec [] c10F1).cache c10F2).invoked
        = false)
    ∧ ((decompileFunction c10Dec (decompileFunction c10Dec [] c10F1).cache c10F2).code
        = (decompileFunction c10Dec [] c10F1).code)
    ∧ ((getFunctionParamC [] c10F2 "" 0).1 = c10F2.params.get? 0) :=
  ⟨(c10_amended_name_key c10Dec [] c10F1 c10F2 rfl rfl).1,
   (c10_amended_name_key c10Dec [] c10F1 c10F2 rfl rfl).2.1,
   (c10_amended_name_key c10Dec [] c10F1 c10F2 rfl rfl).2.2.1,
   (c10_amended_name_key c10Dec [] c10F1 c10F2 rfl rfl).2.2.2 [] "" 0 (by decide)⟩

/-! ## Claim C9: determinism of the crawl (invariance under the function
enumeration order) -/

theorem containsT {l : List String} {y : String} : l.contains y = true ↔ y ∈ l :=
  List.elem_iff

theorem memApiA_iff (d : ApiDict) (x y : String) :
    memApiA d x y = true ↔ ∃ p ∈ d, p.1 = x ∧ y ∈ p.2 := by
  unfold memApiA
  rw [List.any_eq_true]
  constructor
  · rintro ⟨p, hp, hc⟩
    rw [Bool.and_eq_true] at hc
    exact ⟨p, hp, beq_iff_eq.1 hc.1, containsT.1 hc.2⟩
  · rintro ⟨p, hp, h1, h2⟩
    refine ⟨p, hp, ?_⟩
    rw [Bool.and_eq_true]
    exact ⟨beq_iff_eq.2 h1, containsT.2 h2⟩

theorem hasKeyA_iff (d : ApiDict) (x : String) :
    hasKeyA d x = true ↔ ∃ p ∈ d, p.1 = x := by
  unfold hasKeyA
  rw [List.any_eq_true]
  constructor
  · rintro ⟨p, hp, hc⟩
    exact ⟨p, hp, beq_iff_eq.1 hc⟩
  · rintro ⟨p, hp, h1⟩
    exact ⟨p, hp, beq_iff_eq.2 h1⟩

theorem insertApi_pair_iff (d : ApiDict) (k a x y : String) :
    (∃ p ∈ insertApi d k a, p.1 = x ∧ y ∈ p.2) ↔
      ((∃ p ∈ d, p.1 = x ∧ y ∈ p.2) ∨ (x = k ∧ y = a)) := by
  induction d with
  | nil =>
    unfold insertApi
    simp
    intro _
    exact eq_comm
  | cons e rest ih =>
    unfold insertApi
    by_cases h : (e.1 == k) = true
    · rw [if_pos h]
      have hek : e.1 = k := beq_iff_eq.1 h
      have hupd : ∀ z, z ∈ (if e.2.contains a then e.2 else e.2 ++ [a]) ↔
          (z ∈ e.2 ∨ z = a) := by
        intro z
        by_cases hc : e.2.contains a = true
        · rw [if_pos hc]
          constructor
          · intro hz; exact Or.inl hz
          · rintro (hz | hz)
            · exact hz
            · rw [hz]; exact containsT.1 hc
        · rw [if_neg hc]
          simp
      constructor
      · rintro ⟨p, hp, h1, h2⟩
        rcases List.mem_cons.1 hp with h3 | h3
        · rw [h3] at h1 h2
          dsimp at h1 h2
          rcases (hupd y).1 h2 with h4 | h4
          · exact Or.inl ⟨e, List.mem_cons_self e rest, by rw [← h1, hek] at *; exact ⟨by rw [← hek], h4⟩⟩
          · exact Or.inr ⟨by rw [← h1, hek], h4⟩
        · exact Or.inl ⟨p, List.mem_cons_of_mem e h3, h1, h2⟩
      · rintro (⟨p, hp, h1, h2⟩ | ⟨h1, h2⟩)
        · rcases List.mem_cons.1 hp with h3 | h3
          · refine ⟨(e.1, if e.2.contains a then e.2 else e.2 ++ [a]),
              List.mem_cons_self _ _, ?_, ?_⟩
            · rw [h3] at h1; exact h1
            · rw [h3] at h2; exact (hupd y).2 (Or.inl h2)
          · exact ⟨p, List.mem_cons_of_mem _ h3, h1, h2⟩
        · refine ⟨(e.1, if e.2.contains a then e.2 else e.2 ++ [a]),
            List.mem_cons_self _ _, ?_, (hupd y).2 (Or.inr h2)⟩
          rw [hek, h1]
    · rw [if_neg h]
      constructor
      · rintro ⟨p, hp, h1, h2⟩
        rcases List.mem_cons.1 hp with h3 | h3
        · exact Or.inl ⟨e, List.mem_cons_self e rest, by rw [h3] at h1 h2; exact h1,
            by rw [h3] at h2; exact h2⟩
        · rcases ih.1 ⟨p, h3, h1, h2⟩ with h4 | h4
          · rcases h4 with ⟨q, hq, hq1, hq2⟩
            exact Or.inl ⟨q, List.mem_cons_of_mem e hq, hq1, hq2⟩
          · exact Or.inr h4
      · rintro (⟨p, hp, h1, h2⟩ | ⟨h1, h2⟩)
        · rcases List.mem_cons.1 hp with h3 | h3
          · exact ⟨e, List.mem_cons_self _ _, by rw [h3] at h1; exact h1,
              by rw [h3] at h2; exact h2⟩
          · obtain ⟨q, hq, hq1, hq2⟩ := ih.2 (Or.inl ⟨p, h3, h1, h2⟩)
            exact ⟨q, List.mem_cons_of_mem e hq, hq1, hq2⟩
        · obtain ⟨q, hq, hq1, hq2⟩ := ih.2 (Or.inr ⟨h1, h2⟩)
          exact ⟨q, List.mem_cons_of_mem e hq, hq1, hq2⟩

theorem insertApi_key_iff (d : ApiDict) (k a x : String) :
    (∃ p ∈ insertApi d k a, p.1 = x) ↔ ((∃ p ∈ d, p.1 = x) ∨ x = k) := by
  induction d with
  | nil =>
    unfold insertApi
    simp
    exact ⟨fun h => h.symm, fun h => h.symm⟩
  | cons e rest ih =>
    unfold insertApi
    by_cases h : (e.1 == k) = true
    · rw [if_pos h]
      have hek : e.1 = k := beq_iff_eq.1 h
      constructor
      · rintro ⟨p, hp, h1⟩
        rcases List.mem_cons.1 hp with h3 | h3
        · exact Or.inl ⟨e, List.mem_cons_self e rest, by rw [h3] at h1; exact h1⟩
        · exact Or.inl ⟨p, List.mem_cons_of_mem e h3, h1⟩
      · rintro (⟨p, hp, h1⟩ | h1)
        · rcases List.mem_cons.1 hp with h3 | h3
          · exact ⟨(e.1, if e.2.contains a then e.2 else e.2 ++ [a]),
              List.mem_cons_self _ _, by rw [h3] at h1; exact h1⟩
          · exact ⟨p, List.mem_cons_of_mem _ h3, h1⟩
        · exact ⟨(e.1, if e.2.contains a then e.2 else e.2 ++ [a]),
            List.mem_cons_self _ _, by rw [hek, h1]⟩
    · rw [if_neg h]
      constructor
      · rintro ⟨p, hp, h1⟩
        rcases List.mem_cons.1 hp with h3 | h3
        · exact Or.inl ⟨e, List.mem_cons_self e rest, by rw [h3] at h1; exact h1⟩
        · rcases ih.1 ⟨p, h3, h1⟩ with h4 | h4
          · rcases h4 with ⟨q, hq, hq1⟩
            exact Or.inl ⟨q, List.mem_cons_of_mem e hq, hq1⟩
          · exact Or.inr h4
      · rintro (⟨p, hp, h1⟩ | h1)
        · rcases List.mem_cons.1 hp with h3 | h3
          · exact ⟨e, List.mem_cons_self _ _, by rw [h3] at h1; exact h1⟩
          · obtain ⟨q, hq, hq1⟩ := ih.2 (Or.inl ⟨p, h3, h1⟩)
            exact ⟨q, List.mem_cons_of_mem e hq, hq1⟩
        · obtain ⟨q, hq, hq1⟩ := ih.2 (Or.inr h1)
          exact ⟨q, List.mem_cons_of_mem e hq, hq1⟩

theorem updateApiDict_eq (st : ProgState) (d : ApiDict) (dll? : Option String) (a : String) :
    updateApiDict st d dll? a =
      (match resolvedDllKey st dll? a with
       | none => d
       | some k => insertApi d k a) := by
  unfold updateApiDict resolvedDllKey
  cases hr : (match dll? with | some x => some x | none => resolveDllFromDb st a) with
  | none => rfl
  | some dll => rfl

theorem updateApiDict_pair_iff (st : ProgState) (d : ApiDict) (dll? : Option String)
    (a x y : String) :
    memApiA (updateApiDict st d dll? a) x y = true ↔
      (memApiA d x y = true ∨ (resolvedDllKey st dll? a = some x ∧ y = a)) := by
  rw [updateApiDict_eq]
  cases hr : resolvedDllKey st dll? a with
  | none =>
    simp [hr]
  | some k =>
    rw [memApiA_iff, insertApi_pair_iff, memApiA_iff]
    constructor
    · rintro (h | ⟨h1, h2⟩)
      · exact Or.inl h
      · exact Or.inr ⟨by rw [h1], h2⟩
    · rintro (h | ⟨h1, h2⟩)
      · exact Or.inl h
      · exact Or.inr ⟨(Option.some.inj h1).symm, h2⟩

theorem updateApiDict_key_iff (st : ProgState) (d : ApiDict) (dll? : Option String)
    (a x : String) :
    hasKeyA (updateApiDict st d dll? a) x = true ↔
      (hasKeyA d x = true ∨ resolvedDllKey st dll? a = some x) := by
  rw [updateApiDict_eq]
  cases hr : resolvedDllKey st dll? a with
  | none =>
    simp [hr]
  | some k =>
    rw [hasKeyA_iff, insertApi_key_iff, hasKeyA_iff]
    constructor
    · rintro (h | h)
      · exact Or.inl h
      · exact Or.inr (by rw [h])
    · rintro (h | h)
      · exact Or.inl h
      · exact Or.inr (Option.some.inj h).symm

theorem boolEqOfIff {a b : Bool} (h : a = true ↔ b = true) : a = b := by
  cases a <;> cases b <;> simp_all

theorem apiDictEquiv_refl (d : ApiDict) : apiDictEquiv d d := fun _ _ => ⟨rfl, rfl⟩

theorem apiDictEquiv_trans {d1 d2 d3 : ApiDict} (h1 : apiDictEquiv d1 d2)
    (h2 : apiDictEquiv d2 d3) : apiDictEquiv d1 d3 := by
  intro k a
  exact ⟨(h1 k a).1.trans (h2 k a).1, (h1 k a).2.trans (h2 k a).2⟩

theorem updateApiDict_congr (st : ProgState) {d1 d2 : ApiDict} (h : apiDictEquiv d1 d2)
    (p : Option String × String) :
    apiDictEquiv (updateApiDict st d1 p.1 p.2) (updateApiDict st d2 p.1 p.2) := by
  intro k a
  constructor
  · apply boolEqOfIff
    rw [updateApiDict_pair_iff, updateApiDict_pair_iff, (h k a).1]
  · apply boolEqOfIff
    rw [updateApiDict_key_iff, updateApiDict_key_iff, (h k a).2]

theorem updateApiDict_swap (st : ProgState) (d : ApiDict) (p q : Option String × String) :
    apiDictEquiv (updateApiDict st (updateApiDict st d p.1 p.2) q.1 q.2)
                 (updateApiDict st (updateApiDict st d q.1 q.2) p.1 p.2) := by
  intro k a
  constructor
  · apply boolEqOfIff
    rw [updateApiDict_pair_iff, updateApiDict_pair_iff, updateApiDict_pair_iff,
      updateApiDict_pair_iff]
    tauto
  · apply boolEqOfIff
    rw [updateApiDict_key_iff, updateApiDict_key_iff, updateApiDict_key_iff,
      updateApiDict_key_iff]
    tauto

theorem foldl_update_congr (st : ProgState) :
    ∀ (l : List (Option String × String)) {d1 d2 : ApiDict}, apiDictEquiv d1 d2 →
      apiDictEquiv (l.foldl (fun d p => updateApiDict st d p.1 p.2) d1)
                   (l.foldl (fun d p => updateApiDict st d p.1 p.2) d2) := by
  intro l
  induction l with
  | nil => intro d1 d2 h; exact h
  | cons x rest ih => intro d1 d2 h; exact ih (updateApiDict_congr st h x)

theorem foldl_update_perm (st : ProgState) {l1 l2 : List (Option String × String)}
    (hp : l1.Perm l2) :
    ∀ {d1 d2 : ApiDict}, apiDictEquiv d1 d2 →
      apiDictEquiv (l1.foldl (fun d p => updateApiDict st d p.1 p.2) d1)
                   (l2.foldl (fun d p => updateApiDict st d p.1 p.2) d2) := by
  induction hp with
  | nil => intro d1 d2 h; exact h
  | cons x hp ih => intro d1 d2 h; exact ih (updateApiDict_congr st h x)
  | swap x y l =>
    intro d1 d2 h
    rw [List.foldl_cons, List.foldl_cons, List.foldl_cons, List.foldl_cons]
    apply foldl_update_congr
    exact apiDictEquiv_trans (updateApiDict_congr st (updateApiDict_congr st h y) x)
      (updateApiDict_swap st d2 y x)
  | trans hp1 hp2 ih1 ih2 =>
    intro d1 d2 h
    exact apiDictEquiv_trans (ih1 h) (ih2 (apiDictEquiv_refl _))

/-- C9 (amended): for a program state that fixes the name-keyed decompiled
texts and the iteration order of each calling-functions set, the engine is
a pure function of its inputs — two runs yield literally the same
dictionary — and the resulting dictionary, viewed as a mapping from dll
keys to api-name sets, is moreover invariant under permutation of the
enumeration order of the set of functions containing `GetProcAddress`
references.  The iteration order of a calling-functions set is *not*
covered: it is observably part of the input (see the counterexample). -/
theorem c9_determinism (st : ProgState) (fns fns' : List Fn) (d0 : ApiDict)
    (hperm : fns.Perm fns') :
    apiDictEquiv (crawlDynamicImports st fns d0) (crawlDynamicImports st fns' d0) := by
  unfold crawlDynamicImports
  exact foldl_update_perm st (List.Perm.flatMap_right (processFunction st) hperm)
    (apiDictEquiv_refl d0)

/-- Witness for C9: two enumeration orders of a two-function state. -/
theorem c9_witness :
    apiDictEquiv (crawlDynamicImports c9St [c9FnA, c9FnB] [])
                 (crawlDynamicImports c9St [c9FnB, c9FnA] []) :=
  c9_determinism c9St [c9FnA, c9FnB] [c9FnB, c9FnA] [] (List.Perm.swap c9FnB c9FnA [])

/-- C9 counterexample: two program states identical in every component and
agreeing on the *set* of calling functions, but differing in the iteration
order of that set, produce different output mappings: with the
literal-passing caller first, the engine emits only `advapi32.dll`; with
the unresolved caller first, `api_dll` is still `None` at the first
emission, the database path resolves it, and the run additionally emits a
`secur32.dll` key.  The caller-set iteration order is therefore hidden
randomness that is observable in the `ApiDict`. -/
theorem c9_counterexample :
    c9xSt2.code = c9xSt1.code
    ∧ c9xSt2.fnsByName = c9xSt1.fnsByName
    ∧ c9xSt2.loadLibFns = c9xSt1.loadLibFns
    ∧ c9xSt2.strings = c9xSt1.strings
    ∧ c9xSt2.apiDb = c9xSt1.apiDb
    ∧ (c9xSt1.callers c9xF).Perm (c9xSt2.callers c9xF)
    ∧ hasKeyA (crawlDynamicImports c9xSt1 [c9xF] []) "secur32.dll" = false
    ∧ hasKeyA (crawlDynamicImports c9xSt2 [c9xF] []) "secur32.dll" = true
    ∧ ¬ apiDictEquiv (crawlDynamicImports c9xSt1 [c9xF] [])
        (crawlDynamicImports c9xSt2 [c9xF] []) := by
  refine ⟨rfl, rfl, rfl, rfl, rfl, List.Perm.swap c9xCB c9xCA [], by decide, by decide, ?_⟩
  intro h
  have h2 := (h "secur32.dll" "GetUserNameA").2
  exact absurd h2 (by decide)
